import Mathlib

/-
Shallow embedding of the scramble-generation core of the SpeedCubingThreads
repository, together with the schedule lookup of the Discord scramble manager.

The repository contains three revisions of the generator module
(`src/unnamed/part_006` plus the two documents of `src/unnamed/part_007`);
they are embedded here in the namespaces `HardRev` (part_006, the
pattern-inserting, high-difficulty revision), `SimpleRev` (part_007, first
document: last-face exclusion only) and `AxisRev` (part_007, second document:
axis exclusion with two-move lookback).

Randomness model: the source draws from the ambient `Math.random()`.  Each
call to `Math.random()` is modelled as one draw from a stream `σ : Nat → Nat`;
draw number `k` denotes the real number `(σ k % 1000) / 1000 ∈ [0,1)` at
granularity 1/1000.  Under this model
  `Math.floor(Math.random() * n)`      becomes  `σ k % 1000 * n / 1000`,
  `Math.random() < 0.7`                becomes  `σ k % 1000 < 700`,
and every outcome the source can produce is reachable for some `σ`.
Generators are pure functions of the draw stream; the field `k` of each
generator state is the index of the next unconsumed draw, so draws are
consumed in exactly the order of the source's `Math.random()` calls.

Scramble strings: the source pushes rendered move strings onto an array and
returns `array.join(' ')`.  Here every pushed string is kept as a `Tok`
(identifier part and suffix part, concatenated by `Tok.render` to exactly the
pushed string); `renderScramble` is `join(' ')`.  The token lists are built
newest-first (a push is a `cons`) and reversed at the end.
-/

namespace SpeedCubing

/-- A stream of raw `Math.random()` draws (see the randomness model above). -/
abbrev RSrc := Nat → Nat

/-- `getRandomInt(min, max)` from the source:
`Math.floor(Math.random() * (max - min + 1)) + min`. -/
def getRandomInt (r lo hi : Nat) : Nat := lo + r % 1000 * (hi - lo + 1) / 1000

/-- `getRandomElement(array)` from the source:
`array[Math.floor(Math.random() * array.length)]`.  On a non-empty list the
index is always in bounds and the default is never used. -/
def getRandomElement {α : Type} (r : Nat) (l : List α) (d : α) : α :=
  l.getD (r % 1000 * l.length / 1000) d

/-- One pushed scramble string, split as identifier ++ suffix. -/
structure Tok where
  id : String
  suf : String
deriving DecidableEq

/-- The string actually pushed onto the scramble array. -/
def Tok.render (t : Tok) : String := t.id ++ t.suf

/-- JavaScript `array.join(' ')`. -/
def joinSpace : List String → String
  | [] => ""
  | [s] => s
  | s :: rest => s ++ " " ++ joinSpace rest

def renderScramble (ts : List Tok) : String := joinSpace (ts.map Tok.render)

/-- The `sameAxis` record of part_006 and of the second document of part_007
(the two copies are identical).  A key absent from the record is modelled by
`[]`; the source only reads present keys (guarded by `if (lastMove)` with
`lastMove` drawn from the move alphabet). -/
def sameAxis : String → List String
  | "R" => ["R", "L"]
  | "L" => ["R", "L"]
  | "U" => ["U", "D"]
  | "D" => ["U", "D"]
  | "F" => ["F", "B"]
  | "B" => ["F", "B"]
  | _ => []

/-- A counted `for (let i = 0; i < n; i++)` loop: `iterRun step n i s` runs
`step` on iteration indices `i, i+1, …, i+n-1`. -/
def iterRun {St : Type} (step : Nat → St → St) : Nat → Nat → St → St
  | 0, _, s => s
  | n + 1, i, s => iterRun step n (i + 1) (step i s)

/-- A `for` loop whose body may advance the loop index by more than one
(the `i += pattern.length - 1; continue` branches).  The step returns the new
state and the index for the next iteration; `fuel` only bounds the recursion
and never cuts a run short when `mc ≤ fuel + i` and the index grows. -/
def fuelRun {St : Type} (mc : Nat) (step : Nat → St → St × Nat) :
    Nat → Nat → St → St
  | 0, _, s => s
  | fuel + 1, i, s =>
    if i < mc then
      let p := step i s
      fuelRun mc step fuel p.2 p.1
    else s

/-- The `moves` alphabet of the large-cube (3x3-family) generators; the list
is identical in part_006 line 55, part_007 line 34 and part_007 line 268. -/
def moves3 : List String := ["R", "L", "U", "D", "F", "B"]

/-- The `regularMoves` alphabet of the Pyraminx generators (part_006 line 199,
part_007 lines 80 and 338). -/
def regularMoves : List String := ["R", "L", "U", "B"]

/-- The `tipMoves` alphabet of the Pyraminx generators (part_006 line 200,
part_007 lines 81 and 339). -/
def tipMoves : List String := ["r", "l", "u", "b"]

/-- The `corners` alphabet of the Skewb generators (part_006 line 296,
part_007 line 381). -/
def corners : List String := ["R", "U", "L", "B"]

/-- The `positions` list of the Clock generators (part_006 line 422,
part_007 line 422). -/
def positions : List String := ["UL", "UR", "DR", "DL", "ALL"]

/-- State of the two-move-lookback loops (`scramble`, `lastMove`,
`secondLastMove` and the index of the next random draw). -/
structure MState where
  scramble : List Tok
  lastMove : String
  secondLastMove : String
  k : Nat

/-- State of the Skewb loop of part_006 (`lastCorner`/`secondLastCorner`). -/
structure SState where
  scramble : List Tok
  lastCorner : String
  secondLastCorner : String
  k : Nat

/-- The candidate-set computation of the axis-filtering 3x3 loops; the code is
identical in part_006 lines 64-85 and part_007 lines 275-296:
filter out the axis of the last move, then (when present in the remaining
set) the face from two moves back, and if nothing remains relax to anything
but the last move. -/
def avail3 (lastMove secondLastMove : String) : List String :=
  let a1 := if lastMove ≠ "" then
      moves3.filter (fun move => !((sameAxis lastMove).contains move))
    else moves3
  let a2 := if secondLastMove ≠ "" ∧ lastMove ≠ "" ∧ a1.contains secondLastMove
    then a1.filter (fun move => move != secondLastMove) else a1
  if a2.isEmpty then moves3.filter (fun move => move != lastMove) else a2

/-- The tip loop shared (up to modifier list and tip count) by the Pyraminx
generators of part_006 (lines 276-285) and part_007 (lines 361-370): pick an
unused tip, give it a modifier, record it as used; stop early if no tip is
left. -/
def tipLoop (σ : RSrc) (mods : List String) :
    Nat → List String → Nat → List Tok → List Tok × Nat
  | 0, _, k, acc => (acc, k)
  | n + 1, usedTips, k, acc =>
    let availableTips := tipMoves.filter (fun tip => !(usedTips.contains tip))
    if availableTips.isEmpty then (acc, k)
    else
      let tip := getRandomElement (σ k) availableTips ""
      let modifier := getRandomElement (σ (k + 1)) mods ""
      tipLoop σ mods n (tip :: usedTips) (k + 2) (⟨tip, modifier⟩ :: acc)

/-! ## part_007, first document: the simple revision -/

namespace SimpleRev

/-- Modifier list of `generate3x3Scramble` (part_007 line 35). -/
def modifiers : List String := ["", "'", "2"]

structure St where
  scramble : List Tok
  lastFace : String
  k : Nat

/-- Loop body of `generate3x3Scramble` (part_007 lines 39-47): filter out the
last face, pick a face and a modifier. -/
def step3 (σ : RSrc) (_i : Nat) (s : St) : St :=
  let possibleMoves := moves3.filter (fun m => m != s.lastFace)
  let face := getRandomElement (σ s.k) possibleMoves ""
  let modifier := getRandomElement (σ (s.k + 1)) modifiers ""
  { scramble := ⟨face, modifier⟩ :: s.scramble, lastFace := face, k := s.k + 2 }

/-- `generate3x3Scramble` of the simple revision (part_007 lines 33-50),
as its token list. -/
def tokens3x3 (σ : RSrc) : List Tok :=
  (iterRun (step3 σ) 20 0 ⟨[], "", 0⟩).scramble.reverse

def generate3x3Scramble (σ : RSrc) : String := renderScramble (tokens3x3 σ)

/-- Pin states of the simple revision's Clock generator (part_007 line 140):
`['U', 'd']`. -/
def pins : List String := ["U", "d"]

/-- `getRandomInt` at signed bounds, used by the simple Clock generator
(`getRandomInt(-6, 6)`). -/
def getRandomIntInt (r : Nat) (lo hi : Int) : Int :=
  lo + (r % 1000 : Nat) * (hi - lo + 1) / 1000

/-- One clock move push of the simple revision (part_007 lines 147-152):
`${position}${sign}${Math.abs(hour)}` with `hour = getRandomInt(-6, 6)`. -/
def clockMove (r : Nat) (pos : String) : Tok :=
  let hour := getRandomIntInt r (-6) 6
  let sign := if hour < 0 then "-" else "+"
  ⟨pos, sign ++ toString hour.natAbs⟩

/-- `generateClockScramble` of the simple revision (part_007 lines 136-160):
four pin tokens `URx DRx DLx ULx`, five signed moves, then `y2` with
probability 1/2 (`Math.random() > 0.5`). -/
def tokensClock (σ : RSrc) : List Tok :=
  [⟨"UR", getRandomElement (σ 0) pins ""⟩,
   ⟨"DR", getRandomElement (σ 1) pins ""⟩,
   ⟨"DL", getRandomElement (σ 2) pins ""⟩,
   ⟨"UL", getRandomElement (σ 3) pins ""⟩] ++
  [clockMove (σ 4) "UL", clockMove (σ 5) "UR", clockMove (σ 6) "DR",
   clockMove (σ 7) "DL", clockMove (σ 8) "ALL"] ++
  (if σ 9 % 1000 > 500 then [⟨"y2", ""⟩] else [])

def generateClockScramble (σ : RSrc) : String := renderScramble (tokensClock σ)

end SimpleRev

/-! ## part_006: the pattern-inserting high-difficulty revision -/

namespace HardRev

/-- Modifier list of part_006 `generate3x3Scramble` (line 57). -/
def modifiers3 : List String := ["", "'", "'", "2", "2"]

/-- `adjacentPairs` of part_006 `generate3x3Scramble` (line 89). -/
def adjacentPairs : List (List String) :=
  [["R", "F"], ["R", "U"], ["U", "F"], ["L", "B"], ["L", "D"], ["D", "B"]]

/-- Default selection of part_006 `generate3x3Scramble` (lines 108-113). -/
def normal3 (σ : RSrc) (availableMoves : List String) (k : Nat) (s : MState) :
    MState :=
  let face := getRandomElement (σ k) availableMoves ""
  let modifier := getRandomElement (σ (k + 1)) modifiers3 ""
  { scramble := ⟨face, modifier⟩ :: s.scramble,
    lastMove := face, secondLastMove := s.lastMove, k := k + 2 }

/-- Loop body of part_006 `generate3x3Scramble` (lines 63-114): candidate set
via `avail3`, then on every fifth iteration a 70% chance of a preferred
adjacent face, otherwise the default selection. -/
def step3 (σ : RSrc) (i : Nat) (s : MState) : MState :=
  let availableMoves := avail3 s.lastMove s.secondLastMove
  if 0 < i ∧ i % 5 = 0 ∧ s.lastMove ≠ "" then
    let preferredPairs := adjacentPairs.filter (fun pair => pair.contains s.lastMove)
    if preferredPairs ≠ [] then
      let randomPair := getRandomElement (σ s.k) preferredPairs []
      match randomPair.find? (fun move => move != s.lastMove) with
      | some preferredMove =>
        if availableMoves.contains preferredMove then
          if σ (s.k + 1) % 1000 < 700 then
            let modifier := getRandomElement (σ (s.k + 2)) modifiers3 ""
            { scramble := ⟨preferredMove, modifier⟩ :: s.scramble,
              lastMove := preferredMove, secondLastMove := s.lastMove,
              k := s.k + 3 }
          else normal3 σ availableMoves (s.k + 2) s
        else normal3 σ availableMoves (s.k + 1) s
      | none => normal3 σ availableMoves (s.k + 1) s
    else normal3 σ availableMoves s.k s
  else normal3 σ availableMoves s.k s

/-- part_006 `generate3x3Scramble` (lines 54-117): 25 iterations. -/
def tokens3x3 (σ : RSrc) : List Tok :=
  (iterRun (step3 σ) 25 0 ⟨[], "", "", 0⟩).scramble.reverse

def generate3x3Scramble (σ : RSrc) : String := renderScramble (tokens3x3 σ)

/-- Alphabet of part_006 `generate2x2Scramble` (line 125). -/
def moves2 : List String := ["R", "U", "F", "L", "D", "B"]

/-- Modifier list of part_006 `generate2x2Scramble` (line 127). -/
def modifiers2 : List String := ["", "'", "'", "2", "2"]

/-- `hardPatterns` of part_006 `generate2x2Scramble` (lines 159-162). -/
def hardPatterns2 : List (List String) :=
  [["R", "U"], ["R", "F"], ["U", "F"], ["R", "D"], ["F", "D"], ["U", "L"]]

/-- Candidate set of part_006 `generate2x2Scramble` (lines 134-155); like
`avail3` but the axis filter keeps a move when `sameAxis[lastMove]` is absent
(`!sameAxis[lastMove] || !sameAxis[lastMove].includes(move)`). -/
def avail2 (lastMove secondLastMove : String) : List String :=
  let a1 := if lastMove ≠ "" then
      moves2.filter (fun move =>
        (sameAxis lastMove).isEmpty || !((sameAxis lastMove).contains move))
    else moves2
  let a2 := if secondLastMove ≠ "" ∧ lastMove ≠ "" ∧ a1.contains secondLastMove
    then a1.filter (fun move => move != secondLastMove) else a1
  if a2.isEmpty then moves2.filter (fun move => move != lastMove) else a2

/-- Default selection of part_006 `generate2x2Scramble` (lines 183-188). -/
def normal2 (σ : RSrc) (availableMoves : List String) (k : Nat) (s : MState) :
    MState :=
  let face := getRandomElement (σ k) availableMoves ""
  let modifier := getRandomElement (σ (k + 1)) modifiers2 ""
  { scramble := ⟨face, modifier⟩ :: s.scramble,
    lastMove := face, secondLastMove := s.lastMove, k := k + 2 }

/-- Loop body of part_006 `generate2x2Scramble` (lines 133-189): on every
third iteration a 75% chance of continuing a hard two-move pattern. -/
def step2 (σ : RSrc) (i : Nat) (s : MState) : MState :=
  let availableMoves := avail2 s.lastMove s.secondLastMove
  if 0 < i ∧ i % 3 = 0 ∧ s.lastMove ≠ "" then
    let relevantPatterns := hardPatterns2.filter (fun pattern => pattern.contains s.lastMove)
    if relevantPatterns ≠ [] then
      let randomPattern := getRandomElement (σ s.k) relevantPatterns []
      match randomPattern.find? (fun move => move != s.lastMove) with
      | some nextMove =>
        if availableMoves.contains nextMove then
          if σ (s.k + 1) % 1000 < 750 then
            let modifier := getRandomElement (σ (s.k + 2)) modifiers2 ""
            { scramble := ⟨nextMove, modifier⟩ :: s.scramble,
              lastMove := nextMove, secondLastMove := s.lastMove,
              k := s.k + 3 }
          else normal2 σ availableMoves (s.k + 2) s
        else normal2 σ availableMoves (s.k + 1) s
      | none => normal2 σ availableMoves (s.k + 1) s
    else normal2 σ availableMoves s.k s
  else normal2 σ availableMoves s.k s

/-- part_006 `generate2x2Scramble` (lines 123-192): 15 iterations. -/
def tokens2x2 (σ : RSrc) : List Tok :=
  (iterRun (step2 σ) 15 0 ⟨[], "", "", 0⟩).scramble.reverse

def generate2x2Scramble (σ : RSrc) : String := renderScramble (tokens2x2 σ)

/-- Modifier list of part_006 `generatePyraminxScramble` (line 202). -/
def modifiersP : List String := ["", "'", "'"]

/-- `antiRotation` of part_006 `generatePyraminxScramble` (lines 211-214);
absent keys modelled by `""` (only compared, never dereferenced). -/
def antiRotation : String → String
  | "R" => "L"
  | "L" => "R"
  | "U" => "B"
  | "B" => "U"
  | _ => ""

/-- `hardPatterns` of part_006 `generatePyraminxScramble` (lines 217-222). -/
def hardPatternsP : List (List String) :=
  [["R", "L", "R"], ["U", "R", "U"], ["L", "U", "L"], ["B", "R", "B"]]

/-- Candidate set of part_006 `generatePyraminxScramble` (lines 248-261). -/
def availP (lastMove secondLastMove : String) : List String :=
  let a1 := regularMoves.filter (fun move => move != lastMove)
  let a2 := if secondLastMove ≠ "" ∧ lastMove ≠ "" ∧
      secondLastMove = antiRotation lastMove
    then a1.filter (fun move => move != secondLastMove) else a1
  if a2.isEmpty then regularMoves.filter (fun move => move != lastMove) else a2

/-- The inner `for (let j = 0; ...)` of the Pyraminx pattern branch
(part_006 lines 232-235): push every pattern move with a fresh modifier. -/
def pushPattern (σ : RSrc) : List String → Nat → List Tok → List Tok × Nat
  | [], k, acc => (acc, k)
  | p :: rest, k, acc =>
    pushPattern σ rest (k + 1) (⟨p, getRandomElement (σ k) modifiersP ""⟩ :: acc)

/-- Standard selection of part_006 `generatePyraminxScramble` (lines 247-268). -/
def standardP (σ : RSrc) (k : Nat) (i : Nat) (s : MState) : MState × Nat :=
  let availableMoves := availP s.lastMove s.secondLastMove
  let move := getRandomElement (σ k) availableMoves ""
  let modifier := getRandomElement (σ (k + 1)) modifiersP ""
  ({ scramble := ⟨move, modifier⟩ :: s.scramble,
     lastMove := move, secondLastMove := s.lastMove, k := k + 2 }, i + 1)

/-- Loop body of part_006 `generatePyraminxScramble` (lines 224-269): every
fourth index tries to insert a three-move hard pattern, skipping the loop
index ahead by `pattern.length - 1` before the increment. -/
def stepP (σ : RSrc) (moveCount : Nat) (i : Nat) (s : MState) : MState × Nat :=
  if i % 4 = 0 ∧ i + 2 < moveCount then
    let pattern := getRandomElement (σ s.k) hardPatternsP []
    if pattern.getD 0 "" ≠ s.lastMove then
      let pk := pushPattern σ pattern (s.k + 1) s.scramble
      ({ scramble := pk.1,
         lastMove := pattern.getD (pattern.length - 1) "",
         secondLastMove := pattern.getD (pattern.length - 2) "",
         k := pk.2 }, i + (pattern.length - 1) + 1)
    else standardP σ (s.k + 1) i s
  else standardP σ s.k i s

/-- The main-move phase of part_006 `generatePyraminxScramble`
(lines 198-269): `moveCount = getRandomInt(12, 14)` then the pattern loop. -/
def pyraminxMainState (σ : RSrc) : MState :=
  let moveCount := getRandomInt (σ 0) 12 14
  fuelRun moveCount (stepP σ moveCount) moveCount 0 ⟨[], "", "", 1⟩

def pyraminxMain (σ : RSrc) : List Tok := (pyraminxMainState σ).scramble.reverse

/-- The tip phase of part_006 `generatePyraminxScramble` (lines 271-285):
`tipCount = getRandomInt(0, 2)` unique tips. -/
def pyraminxTips (σ : RSrc) : List Tok :=
  let s := pyraminxMainState σ
  let tipCount := getRandomInt (σ s.k) 0 2
  (tipLoop σ modifiersP tipCount [] (s.k + 1) []).1.reverse

def tokensPyraminx (σ : RSrc) : List Tok := pyraminxMain σ ++ pyraminxTips σ

def generatePyraminxScramble (σ : RSrc) : String :=
  renderScramble (tokensPyraminx σ)

/-- Modifier list of part_006 `generateSkewbScramble` (line 298). -/
def modifiersS : List String := ["", "'", "'", "'"]

/-- `hardPatterns` of part_006 `generateSkewbScramble` (lines 304-309). -/
def hardPatternsS : List (List String) :=
  [["R", "U", "R'"], ["L", "U", "L'"], ["U", "R", "U'"], ["B", "R", "B'"]]

/-- `adjacentCorners` of part_006 `generateSkewbScramble` (lines 312-317);
absent keys modelled by `[]` (JavaScript `undefined`, falsy like `[]` here). -/
def adjacentCorners : String → List String
  | "R" => ["U", "L", "B"]
  | "U" => ["R", "L", "B"]
  | "L" => ["R", "U", "B"]
  | "B" => ["R", "U", "L"]
  | _ => []

/-- Regular selection of part_006 `generateSkewbScramble` (lines 376-382). -/
def regularS (σ : RSrc) (availableCorners : List String) (k : Nat) (i : Nat)
    (s : SState) : SState × Nat :=
  let corner := getRandomElement (σ k) availableCorners ""
  let modifier := getRandomElement (σ (k + 1)) modifiersS ""
  ({ scramble := ⟨corner, modifier⟩ :: s.scramble,
     lastCorner := corner, secondLastCorner := s.lastCorner, k := k + 2 }, i + 1)

/-- Non-pattern path of part_006 `generateSkewbScramble` (lines 351-382):
70% chance of an adjacent corner (excluding the corner from two moves back),
otherwise the regular selection. -/
def adjacencyS (σ : RSrc) (k : Nat) (i : Nat) (s : SState) : SState × Nat :=
  let availableCorners := corners.filter (fun corner => corner != s.lastCorner)
  if s.lastCorner ≠ "" ∧ adjacentCorners s.lastCorner ≠ [] then
    if σ k % 1000 < 700 then
      let adjacentOptions :=
        (adjacentCorners s.lastCorner).filter (fun corner => corner != s.secondLastCorner)
      if adjacentOptions ≠ [] then
        let corner := getRandomElement (σ (k + 1)) adjacentOptions ""
        let modifier := getRandomElement (σ (k + 2)) modifiersS ""
        ({ scramble := ⟨corner, modifier⟩ :: s.scramble,
           lastCorner := corner, secondLastCorner := s.lastCorner,
           k := k + 3 }, i + 1)
      else regularS σ availableCorners (k + 1) i s
    else regularS σ availableCorners (k + 1) i s
  else regularS σ availableCorners k i s

/-- Loop body of part_006 `generateSkewbScramble` (lines 320-383): every
fourth index tries a hedgeslammer pattern; its first and last pushes render
`move[0]` plus the modifier embedded in the pattern string, the middle push
has no modifier; tracking is updated from `pattern[0][0]`/`pattern[1][0]`. -/
def stepS (σ : RSrc) (i : Nat) (s : SState) : SState × Nat :=
  if i % 4 = 0 ∧ i + 2 < 12 then
    let pattern := getRandomElement (σ s.k) hardPatternsS []
    if s.lastCorner ≠ pattern.getD 0 "" then
      let p0 := pattern.getD 0 ""
      let p1 := pattern.getD 1 ""
      let p2 := pattern.getD 2 ""
      ({ scramble := ⟨p2.take 1, p2.drop 1⟩ :: ⟨p1, ""⟩ ::
           ⟨p0.take 1, p0.drop 1⟩ :: s.scramble,
         lastCorner := p0.take 1,
         secondLastCorner := p1.take 1,
         k := s.k + 1 }, i + (pattern.length - 1) + 1)
    else adjacencyS σ (s.k + 1) i s
  else adjacencyS σ s.k i s

/-- part_006 `generateSkewbScramble` (lines 294-386): 12 iterations. -/
def tokensSkewb (σ : RSrc) : List Tok :=
  (fuelRun 12 (stepS σ) 12 0 ⟨[], "", "", 0⟩).scramble.reverse

def generateSkewbScramble (σ : RSrc) : String := renderScramble (tokensSkewb σ)

/-- `hardPinConfigs` of part_006 `generateClockScramble` (lines 402-407), in
the render order UR, DR, DL, UL. -/
def hardPinConfigs : List (List String) :=
  [["d", "d", "d", "u"], ["u", "d", "d", "d"],
   ["d", "u", "d", "d"], ["d", "d", "u", "d"]]

/-- Pin selection of part_006 `generateClockScramble` (lines 410-417): 75%
chance of a hard configuration, otherwise four independent picks.  Returns
the pins `[UR, DR, DL, UL]` and the next draw index. -/
def clockPins (σ : RSrc) : List String × Nat :=
  if σ 0 % 1000 < 750 then (getRandomElement (σ 1) hardPinConfigs [], 2)
  else ([getRandomElement (σ 1) ["u", "d"] "",
         getRandomElement (σ 2) ["u", "d"] "",
         getRandomElement (σ 3) ["u", "d"] "",
         getRandomElement (σ 4) ["u", "d"] ""], 5)

/-- Hour selection of part_006 `generateClockScramble` (lines 429-433):
`hourBase = getRandomInt(0, 11)`, and when `hourBase < 6` a 25% chance of
rerolling into `getRandomInt(6, 11)` (the second draw happens only when
`hourBase < 6`, by short-circuit evaluation). -/
def clockHour (σ : RSrc) (k : Nat) : Nat × Nat :=
  let hourBase := getRandomInt (σ k) 0 11
  if hourBase < 6 then
    if σ (k + 1) % 1000 < 250 then (getRandomInt (σ (k + 2)) 6 11, k + 3)
    else (hourBase, k + 2)
  else (hourBase, k + 1)

/-- One block of position moves of part_006 `generateClockScramble`
(lines 426-437 and 444-452): `${pos}${hour >= 0 ? '+' : ''}${hour}`. -/
def clockMoves (σ : RSrc) : List String → Nat → List Tok × Nat
  | [], k => ([], k)
  | pos :: rest, k =>
    let h := clockHour σ k
    let t : Tok := ⟨pos, (if 0 ≤ h.1 then "+" else "") ++ toString h.1⟩
    let r := clockMoves σ rest h.2
    (t :: r.1, r.2)

/-- part_006 `generateClockScramble` (lines 392-455): pin tuple, five moves,
`y2`, five moves. -/
def tokensClock (σ : RSrc) : List Tok :=
  let ps := clockPins σ
  let pinTok : Tok := ⟨"(", ps.1.getD 0 "" ++ "," ++ ps.1.getD 1 "" ++ "," ++
    ps.1.getD 2 "" ++ "," ++ ps.1.getD 3 "" ++ ")"⟩
  let m1 := clockMoves σ positions ps.2
  let m2 := clockMoves σ positions m1.2
  pinTok :: m1.1 ++ ⟨"y2", ""⟩ :: m2.1

def generateClockScramble (σ : RSrc) : String := renderScramble (tokensClock σ)

/-- part_006 `generate3x3BLDScramble` (lines 461-465): delegates to the 3x3
generator. -/
def tokens3x3BLD (σ : RSrc) : List Tok := tokens3x3 σ

/-- part_006 `generate3x3OHScramble` (lines 471-473): delegates to the 3x3
generator. -/
def tokens3x3OH (σ : RSrc) : List Tok := tokens3x3 σ

/-- Dispatch of part_006 `generateScramble` (lines 478-497), at token level.
The cube-type tags are the values of `cubeTypes` in `src/shared/schema.ts`. -/
def genTokens (cubeType : String) (σ : RSrc) : List Tok :=
  match cubeType with
  | "3x3" => tokens3x3 σ
  | "2x2" => tokens2x2 σ
  | "Pyraminx" => tokensPyraminx σ
  | "Skewb" => tokensSkewb σ
  | "Clock" => tokensClock σ
  | "3x3 BLD" => tokens3x3BLD σ
  | "3x3 OH" => tokens3x3OH σ
  | _ => tokens3x3 σ

/-- part_006 `generateScramble` (lines 478-497). -/
def generateScramble (cubeType : String) (σ : RSrc) : String :=
  renderScramble (genTokens cubeType σ)

end HardRev

/-! ## part_007, second document: the axis-filtering WCA-style revision -/

namespace AxisRev

/-- Modifier list shared by the generators of this revision
(part_007 lines 269, 316, 340, 382). -/
def modifiers : List String := ["", "'", "2"]

/-- Loop body of `generate3x3Scramble` of this revision (part_007 lines
274-304): the same `avail3` candidate set, then a plain selection. -/
def step3 (σ : RSrc) (_i : Nat) (s : MState) : MState :=
  let availableMoves := avail3 s.lastMove s.secondLastMove
  let face := getRandomElement (σ s.k) availableMoves ""
  let modifier := getRandomElement (σ (s.k + 1)) modifiers ""
  { scramble := ⟨face, modifier⟩ :: s.scramble,
    lastMove := face, secondLastMove := s.lastMove, k := s.k + 2 }

/-- `generate3x3Scramble` of this revision (part_007 lines 267-307):
20 iterations. -/
def tokens3x3 (σ : RSrc) : List Tok :=
  (iterRun (step3 σ) 20 0 ⟨[], "", "", 0⟩).scramble.reverse

def generate3x3Scramble (σ : RSrc) : String := renderScramble (tokens3x3 σ)

/-- Alphabet of `generate2x2Scramble` of this revision (part_007 line 315). -/
def moves2 : List String := ["R", "U", "F"]

/-- Modifier list of `generate2x2Scramble` (part_007 line 316); identical to
`modifiers` but a separate constant in the source. -/
def modifiers2 : List String := ["", "'", "2"]

/-- Loop body of `generate2x2Scramble` of this revision (part_007 lines
320-328): filter out the last face only. -/
def step2 (σ : RSrc) (_i : Nat) (s : MState) : MState :=
  let possibleMoves := moves2.filter (fun move => move != s.lastMove)
  let face := getRandomElement (σ s.k) possibleMoves ""
  let modifier := getRandomElement (σ (s.k + 1)) modifiers2 ""
  { scramble := ⟨face, modifier⟩ :: s.scramble,
    lastMove := face, secondLastMove := s.secondLastMove, k := s.k + 2 }

/-- `generate2x2Scramble` of this revision (part_007 lines 313-331):
exactly 11 iterations. -/
def tokens2x2 (σ : RSrc) : List Tok :=
  (iterRun (step2 σ) 11 0 ⟨[], "", "", 0⟩).scramble.reverse

def generate2x2Scramble (σ : RSrc) : String := renderScramble (tokens2x2 σ)

/-- Modifier list of `generatePyraminxScramble` of this revision
(part_007 line 340). -/
def modifiersP : List String := ["", "'"]

/-- Main-loop body of `generatePyraminxScramble` of this revision
(part_007 lines 346-354). -/
def stepP (σ : RSrc) (_i : Nat) (s : MState) : MState :=
  let possibleMoves := regularMoves.filter (fun move => move != s.lastMove)
  let move := getRandomElement (σ s.k) possibleMoves ""
  let modifier := getRandomElement (σ (s.k + 1)) modifiersP ""
  { scramble := ⟨move, modifier⟩ :: s.scramble,
    lastMove := move, secondLastMove := s.secondLastMove, k := s.k + 2 }

/-- The main-move phase of `generatePyraminxScramble` of this revision
(part_007 lines 344-354): `moveCount = getRandomInt(8, 10)`. -/
def pyraminxMainState (σ : RSrc) : MState :=
  let moveCount := getRandomInt (σ 0) 8 10
  iterRun (stepP σ) moveCount 0 ⟨[], "", "", 1⟩

def pyraminxMain (σ : RSrc) : List Tok := (pyraminxMainState σ).scramble.reverse

/-- The tip phase of `generatePyraminxScramble` of this revision (part_007
lines 356-370): `tipCount = getRandomInt(0, 4)` unique tips. -/
def pyraminxTips (σ : RSrc) : List Tok :=
  let s := pyraminxMainState σ
  let tipCount := getRandomInt (σ s.k) 0 4
  (tipLoop σ modifiersP tipCount [] (s.k + 1) []).1.reverse

def tokensPyraminx (σ : RSrc) : List Tok := pyraminxMain σ ++ pyraminxTips σ

def generatePyraminxScramble (σ : RSrc) : String :=
  renderScramble (tokensPyraminx σ)

/-- Modifier list of `generateSkewbScramble` of this revision
(part_007 line 382). -/
def modifiersS : List String := ["", "'"]

/-- Loop body of `generateSkewbScramble` of this revision (part_007 lines
387-395). -/
def stepS (σ : RSrc) (_i : Nat) (s : SState) : SState :=
  let possibleCorners := corners.filter (fun corner => corner != s.lastCorner)
  let corner := getRandomElement (σ s.k) possibleCorners ""
  let modifier := getRandomElement (σ (s.k + 1)) modifiersS ""
  { scramble := ⟨corner, modifier⟩ :: s.scramble,
    lastCorner := corner, secondLastCorner := s.secondLastCorner, k := s.k + 2 }

/-- `generateSkewbScramble` of this revision (part_007 lines 379-398):
exactly 9 iterations. -/
def tokensSkewb (σ : RSrc) : List Tok :=
  (iterRun (stepS σ) 9 0 ⟨[], "", "", 0⟩).scramble.reverse

def generateSkewbScramble (σ : RSrc) : String := renderScramble (tokensSkewb σ)

/-- Pin selection of `generateClockScramble` of this revision (part_007 lines
412-417): four independent picks from `['u', 'd']`, order UR, DR, DL, UL. -/
def clockPins (σ : RSrc) : List String :=
  [getRandomElement (σ 0) ["u", "d"] "",
   getRandomElement (σ 1) ["u", "d"] "",
   getRandomElement (σ 2) ["u", "d"] "",
   getRandomElement (σ 3) ["u", "d"] ""]

/-- One block of position moves of `generateClockScramble` of this revision
(part_007 lines 423-428 and 434-437): `hour = getRandomInt(0, 6)` and
`${pos}${hour >= 0 ? '+' : ''}${hour}`. -/
def clockMoves (σ : RSrc) : List String → Nat → List Tok × Nat
  | [], k => ([], k)
  | pos :: rest, k =>
    let hour := getRandomInt (σ k) 0 6
    let t : Tok := ⟨pos, (if 0 ≤ hour then "+" else "") ++ toString hour⟩
    let r := clockMoves σ rest (k + 1)
    (t :: r.1, r.2)

/-- `generateClockScramble` of this revision (part_007 lines 404-440): pin
tuple, five moves, `y2`, five moves. -/
def tokensClock (σ : RSrc) : List Tok :=
  let ps := clockPins σ
  let pinTok : Tok := ⟨"(", ps.getD 0 "" ++ "," ++ ps.getD 1 "" ++ "," ++
    ps.getD 2 "" ++ "," ++ ps.getD 3 "" ++ ")"⟩
  let m1 := clockMoves σ positions 4
  let m2 := clockMoves σ positions m1.2
  pinTok :: m1.1 ++ ⟨"y2", ""⟩ :: m2.1

def generateClockScramble (σ : RSrc) : String := renderScramble (tokensClock σ)

/-- `generate3x3BLDScramble` of this revision (part_007 lines 446-450):
delegates to the 3x3 generator. -/
def tokens3x3BLD (σ : RSrc) : List Tok := tokens3x3 σ

/-- `generate3x3OHScramble` of this revision (part_007 lines 456-458):
delegates to the 3x3 generator. -/
def tokens3x3OH (σ : RSrc) : List Tok := tokens3x3 σ

/-- Dispatch of `generateScramble` of this revision (part_007 lines 463-482),
at token level. -/
def genTokens (cubeType : String) (σ : RSrc) : List Tok :=
  match cubeType with
  | "3x3" => tokens3x3 σ
  | "2x2" => tokens2x2 σ
  | "Pyraminx" => tokensPyraminx σ
  | "Skewb" => tokensSkewb σ
  | "Clock" => tokensClock σ
  | "3x3 BLD" => tokens3x3BLD σ
  | "3x3 OH" => tokens3x3OH σ
  | _ => tokens3x3 σ

/-- `generateScramble` of this revision (part_007 lines 463-482). -/
def generateScramble (cubeType : String) (σ : RSrc) : String :=
  renderScramble (genTokens cubeType σ)

end AxisRev

/-! ## `src/shared/schema.ts` and `src/server/discord/scrambleManager.ts` -/

namespace Schema

/-- The values of the `cubeTypes` enumeration (`src/shared/schema.ts`
lines 6-14). -/
def cubeTypesList : List String :=
  ["Skewb", "3x3 BLD", "2x2", "3x3", "Pyraminx", "3x3 OH", "Clock"]

/-- The `daySchedule` record (`src/shared/schema.ts` lines 69-77); an absent
key is modelled by `""` (unreachable from `getCubeTypeForDay`). -/
def daySchedule : String → String
  | "MONDAY" => "Skewb"
  | "TUESDAY" => "3x3 BLD"
  | "WEDNESDAY" => "2x2"
  | "THURSDAY" => "3x3"
  | "FRIDAY" => "Pyraminx"
  | "SATURDAY" => "3x3 OH"
  | "SUNDAY" => "Clock"
  | _ => ""

/-- The `days` array of `ScrambleManager.getCubeTypeForDay`
(`src/server/discord/scrambleManager.ts` line 14). -/
def days : List String :=
  ["SUNDAY", "MONDAY", "TUESDAY", "WEDNESDAY", "THURSDAY", "FRIDAY", "SATURDAY"]

/-- `ScrambleManager.getCubeTypeForDay` (`scrambleManager.ts` lines 13-17).
A date is represented by its weekday index `date.getDay() ∈ 0..6`
(0 = Sunday), which JavaScript guarantees for every valid date. -/
def getCubeTypeForDay (d : Fin 7) : String := daySchedule (days.getD d.val "")

end Schema

/-! ## Verification definitions -/

/-- The identifier of the newest pushed token agrees with the tracked last
move (`""` when nothing has been pushed yet). -/
def headIs (acc : List Tok) (lastMove : String) : Prop :=
  match acc with
  | [] => lastMove = ""
  | t :: _ => t.id = lastMove

/-- Two tokens with distinct identifiers (used for the immediate
non-repetition chains). -/
def idNe (a b : Tok) : Prop := a.id ≠ b.id

/-- Newer token `a` does not lie on the axis of the older token `b`
(the token lists inside the loop states are newest-first). -/
def axisOk (a b : Tok) : Prop := (sameAxis b.id).contains a.id = false

/-- In an output-ordered token list: the later token `b` does not lie on the
axis of the earlier token `a`. -/
def axisSep (a b : Tok) : Prop := (sameAxis a.id).contains b.id = false

/-- Every hour suffix the tuple-prefix clock generators can render:
`+0` … `+11`. -/
def hourSufs : List String := (List.range 12).map (fun h => "+" ++ toString h)

/-- Every pin-tuple suffix of the tuple-prefix clock generators: the four
pins each `u` or `d`, comma-separated, closed by `)`. -/
def pinSufStrings : List String :=
  ["u", "d"].flatMap (fun a => ["u", "d"].flatMap (fun b =>
    ["u", "d"].flatMap (fun c =>
      ["u", "d"].map (fun e => a ++ "," ++ b ++ "," ++ c ++ "," ++ e ++ ")"))))

/-- Invariant of the axis-filtering large-cube loops (part_006
`generate3x3Scramble`/`generate2x2Scramble` and part_007
`generate3x3Scramble` of the second document): tracked moves lie in the
alphabet, the newest token carries `lastMove`, no pushed face lies on the
axis of its predecessor, and every token is alphabet face ++ declared
modifier. -/
def lcInv (alpha mods : List String) (s : MState) : Prop :=
  s.lastMove ∈ "" :: alpha ∧ s.secondLastMove ∈ "" :: alpha ∧
  headIs s.scramble s.lastMove ∧
  List.Chain' axisOk s.scramble ∧
  (∀ t ∈ s.scramble, t.id ∈ alpha ∧ t.suf ∈ mods)

/-- Invariant of the last-move-excluding loops on `MState` (the Pyraminx
main loops and the simple 2x2 loop): as `lcInv` but with plain
distinct-from-predecessor chains. -/
def mInv (alpha mods : List String) (s : MState) : Prop :=
  s.lastMove ∈ "" :: alpha ∧ s.secondLastMove ∈ "" :: alpha ∧
  headIs s.scramble s.lastMove ∧
  List.Chain' idNe s.scramble ∧
  (∀ t ∈ s.scramble, t.id ∈ alpha ∧ t.suf ∈ mods)

/-- Invariant of the Skewb loops (on `SState`). -/
def sInv (mods : List String) (s : SState) : Prop :=
  s.lastCorner ∈ "" :: corners ∧ s.secondLastCorner ∈ "" :: corners ∧
  headIs s.scramble s.lastCorner ∧
  List.Chain' idNe s.scramble ∧
  (∀ t ∈ s.scramble, t.id ∈ corners ∧ t.suf ∈ mods)

/-- Invariant of the simple-revision 3x3 loop (on `SimpleRev.St`). -/
def simpleInv (s : SimpleRev.St) : Prop :=
  s.lastFace ∈ "" :: moves3 ∧
  headIs s.scramble s.lastFace ∧
  List.Chain' idNe s.scramble ∧
  (∀ t ∈ s.scramble, t.id ∈ moves3 ∧ t.suf ∈ SimpleRev.modifiers)

/-- Invariant of the tip loops: all recorded tips are distinct members of
the tip alphabet with declared modifiers, and every pushed tip is in the
`usedTips` record. -/
def tipInv (mods usedTips : List String) (acc : List Tok) : Prop :=
  (acc.map Tok.id).Nodup ∧
  (∀ t ∈ acc, t.id ∈ tipMoves ∧ t.suf ∈ mods ∧ t.id ∈ usedTips)

/-- A character the scramble strings may contain: anything except a newline
and a backtick (code point 96). -/
def okChar (c : Char) : Bool := c != '\n' && c != Char.ofNat 96

/-- A string free of newlines and backticks. -/
def okStr (s : String) : Bool := s.data.all okChar

/-- Identifier and suffix drawn from given lists. -/
def tokOK (ids sufs : List String) (t : Tok) : Prop := t.id ∈ ids ∧ t.suf ∈ sufs

/-- Well-formedness of one token of the tuple-prefix clock output. -/
def clockTokOK (t : Tok) : Prop :=
  (t.id = "(" ∧ t.suf ∈ pinSufStrings) ∨ (t.id = "y2" ∧ t.suf = "") ∨
  (t.id ∈ positions ∧ t.suf ∈ hourSufs)

/-- The per-puzzle alphabet/modifier discipline of the part_006 dispatch:
which identifiers and suffixes `generateScramble` may emit for each
cube-type tag (unrecognised tags fall back to the 3x3 grammar). -/
def tokSpec (cubeType : String) (t : Tok) : Prop :=
  match cubeType with
  | "2x2" => tokOK HardRev.moves2 HardRev.modifiers2 t
  | "Pyraminx" => tokOK (regularMoves ++ tipMoves) HardRev.modifiersP t
  | "Skewb" => tokOK corners HardRev.modifiersS t
  | "Clock" => clockTokOK t
  | _ => tokOK moves3 HardRev.modifiers3 t

/-! ## Lemmas about the randomness helpers -/

theorem getRandomElement_mem {α : Type} (r : Nat) (l : List α) (d : α)
    (h : l ≠ []) : getRandomElement r l d ∈ l := by
  have hlen : 0 < l.length := List.length_pos.mpr h
  have hidx : r % 1000 * l.length / 1000 < l.length := by
    apply (Nat.div_lt_iff_lt_mul (by norm_num : (0 : Nat) < 1000)).mpr
    have h1 : r % 1000 < 1000 := Nat.mod_lt _ (by norm_num)
    calc r % 1000 * l.length < 1000 * l.length :=
          Nat.mul_lt_mul_of_pos_right h1 hlen
      _ = l.length * 1000 := Nat.mul_comm _ _
  rw [getRandomElement, List.getD_eq_getElem?_getD, List.getElem?_eq_getElem hidx,
    Option.getD_some]
  exact List.getElem_mem hidx

theorem getRandomInt_le (r lo hi : Nat) (h : lo ≤ hi) :
    getRandomInt r lo hi ≤ hi := by
  have h1 : r % 1000 * (hi - lo + 1) / 1000 ≤ hi - lo := by
    apply Nat.lt_succ_iff.mp
    apply (Nat.div_lt_iff_lt_mul (by norm_num : (0 : Nat) < 1000)).mpr
    have h2 : r % 1000 < 1000 := Nat.mod_lt _ (by norm_num)
    calc r % 1000 * (hi - lo + 1) < 1000 * (hi - lo + 1) :=
          Nat.mul_lt_mul_of_pos_right h2 (Nat.succ_pos _)
      _ = (hi - lo + 1) * 1000 := Nat.mul_comm _ _
  rw [getRandomInt]
  omega

theorem getRandomInt_lb (r lo hi : Nat) : lo ≤ getRandomInt r lo hi :=
  Nat.le_add_right _ _

/-! ## Lemmas about the candidate sets -/

theorem filter_bne_ne_nil (l : List String) (a b v : String) (ha : a ∈ l)
    (hb : b ∈ l) (hab : a ≠ b) :
    l.filter (fun m => m != v) ≠ [] := by
  rcases eq_or_ne a v with rfl | hav
  · exact List.ne_nil_of_mem (List.mem_filter.mpr ⟨hb, by
      simp only [bne_iff_ne, ne_eq, decide_eq_true_eq]
      exact hab.symm⟩)
  · exact List.ne_nil_of_mem (List.mem_filter.mpr ⟨ha, by
      simp only [bne_iff_ne, ne_eq, decide_eq_true_eq]
      exact hav⟩)

theorem ite_isEmpty_ne_nil (l fb : List String) (hfb : fb ≠ []) :
    (if l.isEmpty then fb else l) ≠ [] := by
  split
  · exact hfb
  · next h => exact fun hnil => h (by simp [hnil])

theorem avail3_ne_nil (lastMove secondLastMove : String) :
    avail3 lastMove secondLastMove ≠ [] := by
  rw [avail3]
  exact ite_isEmpty_ne_nil _ _
    (filter_bne_ne_nil moves3 "R" "L" lastMove (by decide) (by decide) (by decide))

theorem avail2_ne_nil (lastMove secondLastMove : String) :
    HardRev.avail2 lastMove secondLastMove ≠ [] := by
  rw [HardRev.avail2]
  exact ite_isEmpty_ne_nil _ _
    (filter_bne_ne_nil HardRev.moves2 "R" "U" lastMove (by decide) (by decide)
      (by decide))

theorem availP_ne_nil (lastMove secondLastMove : String) :
    HardRev.availP lastMove secondLastMove ≠ [] := by
  rw [HardRev.availP]
  exact ite_isEmpty_ne_nil _ _
    (filter_bne_ne_nil regularMoves "R" "L" lastMove (by decide) (by decide)
      (by decide))

theorem avail3_mem : ∀ lastMove ∈ ("" :: moves3), ∀ secondLastMove ∈ ("" :: moves3),
    ∀ f ∈ avail3 lastMove secondLastMove,
      f ∈ moves3 ∧ (lastMove = "" ∨ (sameAxis lastMove).contains f = false) := by
  decide

theorem avail2_mem : ∀ lastMove ∈ ("" :: HardRev.moves2),
    ∀ secondLastMove ∈ ("" :: HardRev.moves2),
    ∀ f ∈ HardRev.avail2 lastMove secondLastMove,
      f ∈ HardRev.moves2 ∧
        (lastMove = "" ∨ (sameAxis lastMove).contains f = false) := by
  decide

theorem availP_mem : ∀ lastMove ∈ ("" :: regularMoves),
    ∀ secondLastMove ∈ ("" :: regularMoves),
    ∀ f ∈ HardRev.availP lastMove secondLastMove,
      f ∈ regularMoves ∧ f ≠ lastMove := by
  decide

theorem adjacentCorners_mem : ∀ c ∈ corners,
    ∀ x ∈ HardRev.adjacentCorners c, x ∈ corners ∧ x ≠ c := by
  decide

/-! ## Generic loop lemmas -/

theorem iterRun_inv {St : Type} (step : Nat → St → St) (P : St → Prop)
    (hstep : ∀ i s, P s → P (step i s)) :
    ∀ (n i : Nat) (s : St), P s → P (iterRun step n i s) := by
  intro n
  induction n with
  | zero => intro i s h; exact h
  | succ m ih => intro i s h; exact ih _ _ (hstep _ _ h)

theorem iterRun_length {St : Type} (step : Nat → St → St) (f : St → Nat)
    (hstep : ∀ i s, f (step i s) = f s + 1) :
    ∀ (n i : Nat) (s : St), f (iterRun step n i s) = f s + n := by
  intro n
  induction n with
  | zero => intro i s; rfl
  | succ m ih =>
    intro i s
    have : iterRun step (m + 1) i s = iterRun step m (i + 1) (step i s) := rfl
    rw [this, ih, hstep]
    omega

theorem fuelRun_inv {St : Type} (mc : Nat) (step : Nat → St → St × Nat)
    (P : St → Prop) (hstep : ∀ i s, i < mc → P s → P (step i s).1) :
    ∀ (fuel i : Nat) (s : St), P s → P (fuelRun mc step fuel i s) := by
  intro fuel
  induction fuel with
  | zero => intro i s h; exact h
  | succ f ih =>
    intro i s h
    rw [fuelRun]
    split
    · exact ih _ _ (hstep _ _ (by assumption) h)
    · exact h

theorem fuelRun_length {St : Type} (mc : Nat) (step : Nat → St → St × Nat)
    (f : St → Nat)
    (hstep : ∀ i s, i < mc →
      f (step i s).1 = f s + ((step i s).2 - i) ∧
        i < (step i s).2 ∧ (step i s).2 ≤ mc) :
    ∀ (fuel i : Nat) (s : St), i ≤ mc → mc ≤ fuel + i →
      f (fuelRun mc step fuel i s) = f s + (mc - i) := by
  intro fuel
  induction fuel with
  | zero =>
    intro i s h1 h2
    have : i = mc := le_antisymm h1 (by omega)
    subst this
    simp [fuelRun]
  | succ fl ih =>
    intro i s h1 h2
    rw [fuelRun]
    split
    · next hlt =>
      obtain ⟨hlen, hgt, hle⟩ := hstep i s hlt
      rw [ih _ _ hle (by omega), hlen]
      omega
    · next hge =>
      have : i = mc := by omega
      subst this
      simp

/-! ## Chain and invariant helpers -/

theorem last_mem_of_headIs (acc : List Tok) (lastMove : String)
    (alpha : List String) (hhead : headIs acc lastMove)
    (htoks : ∀ t ∈ acc, t.id ∈ alpha) (hne : acc ≠ []) : lastMove ∈ alpha := by
  cases acc with
  | nil => exact absurd rfl hne
  | cons u rest =>
    have hu : u.id = lastMove := hhead
    rw [← hu]
    exact htoks u (by simp)

theorem chain_push (acc : List Tok) (lastMove : String) (t : Tok)
    (hhead : headIs acc lastMove) (hch : List.Chain' idNe acc)
    (hne : acc ≠ [] → t.id ≠ lastMove) :
    List.Chain' idNe (t :: acc) := by
  cases acc with
  | nil => exact List.chain'_singleton t
  | cons u rest =>
    rw [List.chain'_cons]
    refine ⟨?_, hch⟩
    have hu : u.id = lastMove := hhead
    rw [idNe, hu]
    exact hne (by simp)

theorem chain_push_axis (acc : List Tok) (lastMove : String) (t : Tok)
    (hhead : headIs acc lastMove) (hch : List.Chain' axisOk acc)
    (hax : acc ≠ [] → (sameAxis lastMove).contains t.id = false) :
    List.Chain' axisOk (t :: acc) := by
  cases acc with
  | nil => exact List.chain'_singleton t
  | cons u rest =>
    rw [List.chain'_cons]
    refine ⟨?_, hch⟩
    have hu : u.id = lastMove := hhead
    rw [axisOk, hu]
    exact hax (by simp)

theorem chain_axisOk_imp_idNe (alpha : List String)
    (hax : ∀ x ∈ alpha, x ∈ sameAxis x) :
    ∀ l : List Tok, (∀ t ∈ l, t.id ∈ alpha) → List.Chain' axisOk l →
      List.Chain' idNe l := by
  intro l
  induction l with
  | nil => intro _ _; exact List.chain'_nil
  | cons a rest ih =>
    cases rest with
    | nil => intro _ _; exact List.chain'_singleton a
    | cons b rest2 =>
      intro hmem hch
      rw [List.chain'_cons] at hch ⊢
      refine ⟨?_, ih (fun x hx => hmem x (List.mem_cons_of_mem _ hx)) hch.2⟩
      intro heq
      have hb : b.id ∈ alpha := hmem b (by simp)
      have htrue : (sameAxis b.id).contains b.id = true :=
        List.elem_iff.mpr (hax b.id hb)
      have hfalse := hch.1
      simp only [axisOk, heq] at hfalse
      rw [hfalse] at htrue
      exact Bool.false_ne_true htrue

theorem lcInv_push (alpha mods : List String) (s : MState)
    (face modifier : String) (k : Nat)
    (h : lcInv alpha mods s) (hface : face ∈ alpha) (hmod : modifier ∈ mods)
    (haxis : s.scramble ≠ [] → (sameAxis s.lastMove).contains face = false) :
    lcInv alpha mods
      { scramble := ⟨face, modifier⟩ :: s.scramble,
        lastMove := face, secondLastMove := s.lastMove, k := k } := by
  obtain ⟨h1, h2, h3, h4, h5⟩ := h
  refine ⟨List.mem_cons_of_mem _ hface, h1, rfl,
    chain_push_axis s.scramble s.lastMove _ h3 h4 haxis, ?_⟩
  intro t ht
  rcases List.mem_cons.mp ht with rfl | ht
  · exact ⟨hface, hmod⟩
  · exact h5 t ht

theorem mInv_push (alpha mods : List String) (s : MState)
    (face modifier second : String) (k : Nat)
    (h : mInv alpha mods s) (hface : face ∈ alpha) (hmod : modifier ∈ mods)
    (hsec : second ∈ "" :: alpha)
    (hne : s.scramble ≠ [] → face ≠ s.lastMove) :
    mInv alpha mods
      { scramble := ⟨face, modifier⟩ :: s.scramble,
        lastMove := face, secondLastMove := second, k := k } := by
  obtain ⟨h1, h2, h3, h4, h5⟩ := h
  refine ⟨List.mem_cons_of_mem _ hface, hsec, rfl,
    chain_push s.scramble s.lastMove _ h3 h4 hne, ?_⟩
  intro t ht
  rcases List.mem_cons.mp ht with rfl | ht
  · exact ⟨hface, hmod⟩
  · exact h5 t ht

theorem sInv_push (mods : List String) (s : SState)
    (corner modifier second : String) (k : Nat)
    (h : sInv mods s) (hface : corner ∈ corners) (hmod : modifier ∈ mods)
    (hsec : second ∈ "" :: corners)
    (hne : s.scramble ≠ [] → corner ≠ s.lastCorner) :
    sInv mods
      { scramble := ⟨corner, modifier⟩ :: s.scramble,
        lastCorner := corner, secondLastCorner := second, k := k } := by
  obtain ⟨h1, h2, h3, h4, h5⟩ := h
  refine ⟨List.mem_cons_of_mem _ hface, hsec, rfl,
    chain_push s.scramble s.lastCorner _ h3 h4 hne, ?_⟩
  intro t ht
  rcases List.mem_cons.mp ht with rfl | ht
  · exact ⟨hface, hmod⟩
  · exact h5 t ht

theorem chain_reverse_idNe (l : List Tok) (h : List.Chain' idNe l) :
    List.Chain' idNe l.reverse := by
  rw [List.chain'_reverse]
  exact List.Chain'.imp (fun a b hab => Ne.symm hab) h

theorem chain_reverse_axis (l : List Tok) (h : List.Chain' axisOk l) :
    List.Chain' axisSep l.reverse := by
  rw [List.chain'_reverse]
  exact List.Chain'.imp (fun a b hab => hab) h

theorem mem_moves3_ne_empty : ∀ x ∈ moves3, x ≠ "" := by decide

theorem mem_moves2_ne_empty : ∀ x ∈ HardRev.moves2, x ≠ "" := by decide

/-! ## part_006 3x3 loop invariant -/

theorem normal3_inv (σ : RSrc) (k : Nat) (s : MState)
    (h : lcInv moves3 HardRev.modifiers3 s) :
    lcInv moves3 HardRev.modifiers3
      (HardRev.normal3 σ (avail3 s.lastMove s.secondLastMove) k s) := by
  have hne := avail3_ne_nil s.lastMove s.secondLastMove
  have hface := getRandomElement_mem (σ k) (avail3 s.lastMove s.secondLastMove) "" hne
  obtain ⟨hfm, hfl⟩ := avail3_mem s.lastMove h.1 s.secondLastMove h.2.1 _ hface
  refine lcInv_push _ _ s _ _ _ h hfm (getRandomElement_mem _ _ _ (by decide)) ?_
  intro hacc
  rcases hfl with hempty | hfl
  · have hl : s.lastMove ∈ moves3 :=
      last_mem_of_headIs s.scramble s.lastMove moves3 h.2.2.1
        (fun t ht => (h.2.2.2.2 t ht).1) hacc
    exact absurd hempty (mem_moves3_ne_empty _ hl)
  · exact hfl

theorem step3_inv (σ : RSrc) (i : Nat) (s : MState)
    (h : lcInv moves3 HardRev.modifiers3 s) :
    lcInv moves3 HardRev.modifiers3 (HardRev.step3 σ i s) := by
  simp only [HardRev.step3]
  split
  · next hpre =>
    split
    · next hpp =>
      split
      · next pm hfind =>
        split
        · next hcont =>
          split
          · next hrand =>
            have hmem : pm ∈ avail3 s.lastMove s.secondLastMove :=
              List.elem_iff.mp hcont
            obtain ⟨hfm, hfl⟩ :=
              avail3_mem s.lastMove h.1 s.secondLastMove h.2.1 _ hmem
            exact lcInv_push _ _ s _ _ _ h hfm
              (getRandomElement_mem _ _ _ (by decide))
              (fun _ => hfl.resolve_left hpre.2.2)
          · exact normal3_inv σ _ s h
        · exact normal3_inv σ _ s h
      · exact normal3_inv σ _ s h
    · exact normal3_inv σ _ s h
  · exact normal3_inv σ _ s h

theorem lcInv_init : lcInv moves3 HardRev.modifiers3 ⟨[], "", "", 0⟩ :=
  ⟨by simp, by simp, rfl, List.chain'_nil, by simp⟩

theorem run3_inv (σ : RSrc) :
    lcInv moves3 HardRev.modifiers3
      (iterRun (HardRev.step3 σ) 25 0 ⟨[], "", "", 0⟩) :=
  iterRun_inv _ _ (fun i s h => step3_inv σ i s h) 25 0 _ lcInv_init

theorem step3_len (σ : RSrc) (i : Nat) (s : MState) :
    (HardRev.step3 σ i s).scramble.length = s.scramble.length + 1 := by
  simp only [HardRev.step3]
  repeat' split
  all_goals simp [HardRev.normal3]

theorem tokens3x3_len (σ : RSrc) : (HardRev.tokens3x3 σ).length = 25 := by
  rw [HardRev.tokens3x3, List.length_reverse]
  rw [iterRun_length (HardRev.step3 σ) (fun s => s.scramble.length)
    (fun i s => step3_len σ i s) 25 0 _]
  rfl

theorem tokens3x3_facts (σ : RSrc) :
    List.Chain' axisSep (HardRev.tokens3x3 σ) ∧
      (∀ t ∈ HardRev.tokens3x3 σ, t.id ∈ moves3 ∧ t.suf ∈ HardRev.modifiers3) := by
  have h := run3_inv σ
  rw [HardRev.tokens3x3]
  revert h
  generalize iterRun (HardRev.step3 σ) 25 0 ⟨[], "", "", 0⟩ = F
  intro h
  exact ⟨chain_reverse_axis _ h.2.2.2.1,
    fun t ht => h.2.2.2.2 t (List.mem_reverse.mp ht)⟩

/-! ## part_006 2x2 loop invariant -/

theorem normal2_inv (σ : RSrc) (k : Nat) (s : MState)
    (h : lcInv HardRev.moves2 HardRev.modifiers2 s) :
    lcInv HardRev.moves2 HardRev.modifiers2
      (HardRev.normal2 σ (HardRev.avail2 s.lastMove s.secondLastMove) k s) := by
  have hne := avail2_ne_nil s.lastMove s.secondLastMove
  have hface :=
    getRandomElement_mem (σ k) (HardRev.avail2 s.lastMove s.secondLastMove) "" hne
  obtain ⟨hfm, hfl⟩ := avail2_mem s.lastMove h.1 s.secondLastMove h.2.1 _ hface
  refine lcInv_push _ _ s _ _ _ h hfm (getRandomElement_mem _ _ _ (by decide)) ?_
  intro hacc
  rcases hfl with hempty | hfl
  · have hl : s.lastMove ∈ HardRev.moves2 :=
      last_mem_of_headIs s.scramble s.lastMove HardRev.moves2 h.2.2.1
        (fun t ht => (h.2.2.2.2 t ht).1) hacc
    exact absurd hempty (mem_moves2_ne_empty _ hl)
  · exact hfl

theorem step2_inv (σ : RSrc) (i : Nat) (s : MState)
    (h : lcInv HardRev.moves2 HardRev.modifiers2 s) :
    lcInv HardRev.moves2 HardRev.modifiers2 (HardRev.step2 σ i s) := by
  simp only [HardRev.step2]
  split
  · next hpre =>
    split
    · next hpp =>
      split
      · next pm hfind =>
        split
        · next hcont =>
          split
          · next hrand =>
            have hmem : pm ∈ HardRev.avail2 s.lastMove s.secondLastMove :=
              List.elem_iff.mp hcont
            obtain ⟨hfm, hfl⟩ :=
              avail2_mem s.lastMove h.1 s.secondLastMove h.2.1 _ hmem
            exact lcInv_push _ _ s _ _ _ h hfm
              (getRandomElement_mem _ _ _ (by decide))
              (fun _ => hfl.resolve_left hpre.2.2)
          · exact normal2_inv σ _ s h
        · exact normal2_inv σ _ s h
      · exact normal2_inv σ _ s h
    · exact normal2_inv σ _ s h
  · exact normal2_inv σ _ s h

theorem lcInv_init2 : lcInv HardRev.moves2 HardRev.modifiers2 ⟨[], "", "", 0⟩ :=
  ⟨by simp, by simp, rfl, List.chain'_nil, by simp⟩

theorem run2_inv (σ : RSrc) :
    lcInv HardRev.moves2 HardRev.modifiers2
      (iterRun (HardRev.step2 σ) 15 0 ⟨[], "", "", 0⟩) :=
  iterRun_inv _ _ (fun i s h => step2_inv σ i s h) 15 0 _ lcInv_init2

theorem step2_len (σ : RSrc) (i : Nat) (s : MState) :
    (HardRev.step2 σ i s).scramble.length = s.scramble.length + 1 := by
  simp only [HardRev.step2]
  repeat' split
  all_goals simp [HardRev.normal2]

theorem tokens2x2_len (σ : RSrc) : (HardRev.tokens2x2 σ).length = 15 := by
  rw [HardRev.tokens2x2, List.length_reverse]
  rw [iterRun_length (HardRev.step2 σ) (fun s => s.scramble.length)
    (fun i s => step2_len σ i s) 15 0 _]
  rfl

theorem tokens2x2_facts (σ : RSrc) :
    List.Chain' axisSep (HardRev.tokens2x2 σ) ∧
      (∀ t ∈ HardRev.tokens2x2 σ,
        t.id ∈ HardRev.moves2 ∧ t.suf ∈ HardRev.modifiers2) := by
  have h := run2_inv σ
  rw [HardRev.tokens2x2]
  revert h
  generalize iterRun (HardRev.step2 σ) 15 0 ⟨[], "", "", 0⟩ = F
  intro h
  exact ⟨chain_reverse_axis _ h.2.2.2.1,
    fun t ht => h.2.2.2.2 t (List.mem_reverse.mp ht)⟩

/-! ## part_006 Pyraminx loop invariant -/

theorem pushPattern_eq3 (σ : RSrc) (p0 p1 p2 : String) (k : Nat)
    (acc : List Tok) :
    HardRev.pushPattern σ [p0, p1, p2] k acc =
      (⟨p2, getRandomElement (σ (k + 1 + 1)) HardRev.modifiersP ""⟩ ::
        ⟨p1, getRandomElement (σ (k + 1)) HardRev.modifiersP ""⟩ ::
        ⟨p0, getRandomElement (σ k) HardRev.modifiersP ""⟩ :: acc,
       k + 1 + 1 + 1) := rfl

theorem standardP_inv (σ : RSrc) (k i : Nat) (s : MState)
    (h : mInv regularMoves HardRev.modifiersP s) :
    mInv regularMoves HardRev.modifiersP (HardRev.standardP σ k i s).1 := by
  have hne := availP_ne_nil s.lastMove s.secondLastMove
  have hmv := getRandomElement_mem (σ k) _ "" hne
  obtain ⟨hm, hl⟩ := availP_mem s.lastMove h.1 s.secondLastMove h.2.1 _ hmv
  exact mInv_push _ _ s _ _ _ _ h hm (getRandomElement_mem _ _ _ (by decide))
    h.1 (fun _ => hl)

theorem pInv_pattern (s : MState) (p0 p1 p2 : String) (newk : Nat)
    (h : mInv regularMoves HardRev.modifiersP s)
    (hp0 : p0 ≠ s.lastMove)
    (hmem : p0 ∈ regularMoves ∧ p1 ∈ regularMoves ∧ p2 ∈ regularMoves)
    (hne01 : p1 ≠ p0) (hne12 : p2 ≠ p1)
    (m0 m1 m2 : String) (hm0 : m0 ∈ HardRev.modifiersP)
    (hm1 : m1 ∈ HardRev.modifiersP) (hm2 : m2 ∈ HardRev.modifiersP) :
    mInv regularMoves HardRev.modifiersP
      { scramble := ⟨p2, m2⟩ :: ⟨p1, m1⟩ :: ⟨p0, m0⟩ :: s.scramble,
        lastMove := p2, secondLastMove := p1, k := newk } := by
  obtain ⟨h1, h2, h3, h4, h5⟩ := h
  have hc0 : List.Chain' idNe (⟨p0, m0⟩ :: s.scramble) :=
    chain_push s.scramble s.lastMove _ h3 h4 (fun _ => hp0)
  refine ⟨List.mem_cons_of_mem _ hmem.2.2, List.mem_cons_of_mem _ hmem.2.1,
    rfl, ?_, ?_⟩
  · exact List.chain'_cons.mpr ⟨hne12, List.chain'_cons.mpr ⟨hne01, hc0⟩⟩
  · intro t ht
    rcases List.mem_cons.mp ht with rfl | ht
    · exact ⟨hmem.2.2, hm2⟩
    rcases List.mem_cons.mp ht with rfl | ht
    · exact ⟨hmem.2.1, hm1⟩
    rcases List.mem_cons.mp ht with rfl | ht
    · exact ⟨hmem.1, hm0⟩
    exact h5 t ht

theorem stepP_inv (σ : RSrc) (mc i : Nat) (s : MState)
    (h : mInv regularMoves HardRev.modifiersP s) :
    mInv regularMoves HardRev.modifiersP (HardRev.stepP σ mc i s).1 := by
  simp only [HardRev.stepP]
  split
  · next hcond =>
    split
    · next hp0 =>
      have hp := getRandomElement_mem (σ s.k) HardRev.hardPatternsP [] (by decide)
      revert hp0 hp
      generalize getRandomElement (σ s.k) HardRev.hardPatternsP [] = pat
      intro hp0 hp
      simp only [HardRev.hardPatternsP, List.mem_cons, List.not_mem_nil,
        or_false] at hp
      rcases hp with rfl | rfl | rfl | rfl <;>
        simp only [pushPattern_eq3, List.getD_cons_zero, List.getD_cons_succ,
          List.length_cons, List.length_nil] at hp0 ⊢ <;>
        exact pInv_pattern s _ _ _ _ h hp0 (by decide) (by decide) (by decide)
          _ _ _ (getRandomElement_mem _ _ _ (by decide))
          (getRandomElement_mem _ _ _ (by decide))
          (getRandomElement_mem _ _ _ (by decide))
    · exact standardP_inv σ _ i s h
  · exact standardP_inv σ _ i s h

theorem stepP_len (σ : RSrc) (mc i : Nat) (s : MState) (hi : i < mc) :
    (HardRev.stepP σ mc i s).1.scramble.length =
        s.scramble.length + ((HardRev.stepP σ mc i s).2 - i) ∧
      i < (HardRev.stepP σ mc i s).2 ∧ (HardRev.stepP σ mc i s).2 ≤ mc := by
  simp only [HardRev.stepP]
  split
  · next hcond =>
    split
    · next hp0 =>
      have hp := getRandomElement_mem (σ s.k) HardRev.hardPatternsP [] (by decide)
      revert hp0 hp
      generalize getRandomElement (σ s.k) HardRev.hardPatternsP [] = pat
      intro hp0 hp
      simp only [HardRev.hardPatternsP, List.mem_cons, List.not_mem_nil,
        or_false] at hp
      rcases hp with rfl | rfl | rfl | rfl <;>
        simp only [pushPattern_eq3, List.length_cons, List.length_nil] <;>
        omega
    · next hp0 =>
      simp only [HardRev.standardP, List.length_cons]
      omega
  · simp only [HardRev.standardP, List.length_cons]
    omega

theorem mInv_initP : mInv regularMoves HardRev.modifiersP ⟨[], "", "", 1⟩ :=
  ⟨by simp, by simp, rfl, List.chain'_nil, by simp⟩

theorem runP_inv (σ : RSrc) (mc : Nat) :
    mInv regularMoves HardRev.modifiersP
      (fuelRun mc (HardRev.stepP σ mc) mc 0 ⟨[], "", "", 1⟩) :=
  fuelRun_inv mc _ _ (fun i s _ h => stepP_inv σ mc i s h) mc 0 _ mInv_initP

theorem pyraminxMain_facts (σ : RSrc) :
    List.Chain' idNe (HardRev.pyraminxMain σ) ∧
      (∀ t ∈ HardRev.pyraminxMain σ,
        t.id ∈ regularMoves ∧ t.suf ∈ HardRev.modifiersP) := by
  have h := runP_inv σ (getRandomInt (σ 0) 12 14)
  simp only [HardRev.pyraminxMain, HardRev.pyraminxMainState]
  revert h
  generalize fuelRun (getRandomInt (σ 0) 12 14)
    (HardRev.stepP σ (getRandomInt (σ 0) 12 14))
    (getRandomInt (σ 0) 12 14) 0 ⟨[], "", "", 1⟩ = F
  intro h
  exact ⟨chain_reverse_idNe _ h.2.2.2.1,
    fun t ht => h.2.2.2.2 t (List.mem_reverse.mp ht)⟩

theorem pyraminxMain_len (σ : RSrc) :
    (HardRev.pyraminxMain σ).length = getRandomInt (σ 0) 12 14 := by
  simp only [HardRev.pyraminxMain, HardRev.pyraminxMainState]
  rw [List.length_reverse]
  rw [fuelRun_length _ _ (fun s => s.scramble.length)
    (fun i s hi => stepP_len σ _ i s hi) _ 0 _ (Nat.zero_le _) (by omega)]
  simp

theorem pyraminxMain_len_bounds (σ : RSrc) :
    12 ≤ (HardRev.pyraminxMain σ).length ∧
      (HardRev.pyraminxMain σ).length ≤ 14 := by
  rw [pyraminxMain_len]
  exact ⟨getRandomInt_lb _ _ _, getRandomInt_le _ _ _ (by norm_num)⟩

/-! ## Tip loops -/

theorem mem_of_getLastQ {α : Type} {l : List α} {x : α} (h : x ∈ l.getLast?) :
    x ∈ l := by
  obtain ⟨hne, rfl⟩ := List.mem_getLast?_eq_getLast h
  exact List.getLast_mem hne

theorem tipLoop_inv (σ : RSrc) (mods : List String) (hmods : mods ≠ []) :
    ∀ (n : Nat) (used : List String) (k : Nat) (acc : List Tok),
      tipInv mods used acc →
      ((tipLoop σ mods n used k acc).1.map Tok.id).Nodup ∧
        (∀ t ∈ (tipLoop σ mods n used k acc).1,
          t.id ∈ tipMoves ∧ t.suf ∈ mods) := by
  intro n
  induction n with
  | zero =>
    intro used k acc h
    exact ⟨h.1, fun t ht => ⟨(h.2 t ht).1, (h.2 t ht).2.1⟩⟩
  | succ m ih =>
    intro used k acc h
    simp only [tipLoop]
    split
    · exact ⟨h.1, fun t ht => ⟨(h.2 t ht).1, (h.2 t ht).2.1⟩⟩
    · next hne =>
      apply ih
      have havail : tipMoves.filter (fun tip => !(used.contains tip)) ≠ [] :=
        fun hnil => hne (by rw [hnil]; rfl)
      have htip := getRandomElement_mem (σ k) _ "" havail
      rw [List.mem_filter] at htip
      have hcont : used.contains
          (getRandomElement (σ k)
            (tipMoves.filter (fun tip => !(used.contains tip))) "") = false := by
        simpa using htip.2
      have hnotin : getRandomElement (σ k)
          (tipMoves.filter (fun tip => !(used.contains tip))) "" ∉ used :=
        fun hmem => by
          have hc2 : used.contains (getRandomElement (σ k)
              (tipMoves.filter (fun tip => !(used.contains tip))) "") = true :=
            List.elem_iff.mpr hmem
          rw [hcont] at hc2
          exact absurd hc2 (by simp)
      refine ⟨List.nodup_cons.mpr ⟨?_, h.1⟩, ?_⟩
      · intro hmem
        obtain ⟨t, ht, hid⟩ := List.mem_map.mp hmem
        have hu : t.id ∈ used := (h.2 t ht).2.2
        rw [hid] at hu
        exact hnotin hu
      · intro t ht
        rcases List.mem_cons.mp ht with rfl | ht
        · exact ⟨htip.1, getRandomElement_mem _ _ _ hmods, by simp⟩
        · have := h.2 t ht
          exact ⟨this.1, this.2.1, List.mem_cons_of_mem _ this.2.2⟩

theorem tipInv_nil (mods : List String) : tipInv mods [] [] :=
  ⟨List.nodup_nil, by simp⟩

theorem pyraminxTips_facts (σ : RSrc) :
    ((HardRev.pyraminxTips σ).map Tok.id).Nodup ∧
      (∀ t ∈ HardRev.pyraminxTips σ,
        t.id ∈ tipMoves ∧ t.suf ∈ HardRev.modifiersP) := by
  simp only [HardRev.pyraminxTips]
  generalize HardRev.pyraminxMainState σ = S
  have h := tipLoop_inv σ HardRev.modifiersP (by decide)
    (getRandomInt (σ S.k) 0 2) [] (S.k + 1) [] (tipInv_nil _)
  constructor
  · rw [List.map_reverse, List.nodup_reverse]
    exact h.1
  · intro t ht
    exact h.2 t (List.mem_reverse.mp ht)

theorem regular_tip_disjoint : ∀ a ∈ regularMoves, ∀ b ∈ tipMoves, a ≠ b := by
  decide

theorem nodupIds_chain (l : List Tok) (h : (l.map Tok.id).Nodup) :
    List.Chain' idNe l := by
  rw [List.Nodup, List.pairwise_map] at h
  exact List.Pairwise.chain' h

theorem tokensPyraminx_chain (σ : RSrc) :
    List.Chain' idNe (HardRev.tokensPyraminx σ) := by
  rw [HardRev.tokensPyraminx, List.chain'_append]
  refine ⟨(pyraminxMain_facts σ).1, nodupIds_chain _ (pyraminxTips_facts σ).1, ?_⟩
  intro x hx y hy
  have hxm : x ∈ HardRev.pyraminxMain σ := mem_of_getLastQ hx
  have hym : y ∈ HardRev.pyraminxTips σ := List.mem_of_mem_head? hy
  exact regular_tip_disjoint _ ((pyraminxMain_facts σ).2 x hxm).1 _
    ((pyraminxTips_facts σ).2 y hym).1

theorem tokensPyraminx_toks (σ : RSrc) :
    ∀ t ∈ HardRev.tokensPyraminx σ,
      t.id ∈ (regularMoves ++ tipMoves) ∧ t.suf ∈ HardRev.modifiersP := by
  intro t ht
  rw [HardRev.tokensPyraminx] at ht
  rcases List.mem_append.mp ht with ht | ht
  · have := (pyraminxMain_facts σ).2 t ht
    exact ⟨List.mem_append_left _ this.1, this.2⟩
  · have := (pyraminxTips_facts σ).2 t ht
    exact ⟨List.mem_append_right _ this.1, this.2⟩

/-! ## part_006 Skewb loop invariant -/

theorem regularS_inv (σ : RSrc) (k i : Nat) (s : SState)
    (h : sInv HardRev.modifiersS s) :
    sInv HardRev.modifiersS
      (HardRev.regularS σ (corners.filter (fun corner => corner != s.lastCorner))
        k i s).1 := by
  have hne : corners.filter (fun corner => corner != s.lastCorner) ≠ [] :=
    filter_bne_ne_nil corners "R" "U" s.lastCorner (by decide) (by decide)
      (by decide)
  have hc := getRandomElement_mem (σ k) _ "" hne
  rw [List.mem_filter] at hc
  have hcne : getRandomElement (σ k)
      (corners.filter (fun corner => corner != s.lastCorner)) "" ≠ s.lastCorner := by
    have h2 := hc.2
    simpa [bne_iff_ne] using h2
  exact sInv_push _ s _ _ _ _ h hc.1 (getRandomElement_mem _ _ _ (by decide))
    h.1 (fun _ => hcne)

theorem adjacencyS_inv (σ : RSrc) (k i : Nat) (s : SState)
    (h : sInv HardRev.modifiersS s) :
    sInv HardRev.modifiersS (HardRev.adjacencyS σ k i s).1 := by
  simp only [HardRev.adjacencyS]
  split
  · next hcondA =>
    split
    · next hrand =>
      split
      · next hopts =>
        have hlast : s.lastCorner ∈ corners := by
          rcases List.mem_cons.mp h.1 with h0 | h0
          · exact absurd h0 hcondA.1
          · exact h0
        have hco := getRandomElement_mem (σ (k + 1)) _ "" hopts
        rw [List.mem_filter] at hco
        obtain ⟨hmem, hneq⟩ := adjacentCorners_mem s.lastCorner hlast _ hco.1
        exact sInv_push _ s _ _ _ _ h hmem
          (getRandomElement_mem _ _ _ (by decide)) h.1 (fun _ => hneq)
      · exact regularS_inv σ _ i s h
    · exact regularS_inv σ _ i s h
  · exact regularS_inv σ _ i s h

theorem sInv_pattern (s : SState) (p0 p1 m0 m2 : String) (newk : Nat)
    (h : sInv HardRev.modifiersS s)
    (hlast : p0 ≠ s.lastCorner)
    (hmem : p0 ∈ corners ∧ p1 ∈ corners)
    (hne01 : p1 ≠ p0)
    (hm0 : m0 ∈ HardRev.modifiersS) (hm2 : m2 ∈ HardRev.modifiersS) :
    sInv HardRev.modifiersS
      { scramble := ⟨p0, m2⟩ :: ⟨p1, ""⟩ :: ⟨p0, m0⟩ :: s.scramble,
        lastCorner := p0, secondLastCorner := p1, k := newk } := by
  obtain ⟨h1, h2, h3, h4, h5⟩ := h
  have hc0 : List.Chain' idNe (⟨p0, m0⟩ :: s.scramble) :=
    chain_push s.scramble s.lastCorner _ h3 h4 (fun _ => hlast)
  refine ⟨List.mem_cons_of_mem _ hmem.1, List.mem_cons_of_mem _ hmem.2, rfl,
    ?_, ?_⟩
  · exact List.chain'_cons.mpr ⟨hne01.symm, List.chain'_cons.mpr ⟨hne01, hc0⟩⟩
  · intro t ht
    rcases List.mem_cons.mp ht with rfl | ht
    · exact ⟨hmem.1, hm2⟩
    rcases List.mem_cons.mp ht with rfl | ht
    · exact ⟨hmem.2, show "" ∈ HardRev.modifiersS by decide⟩
    rcases List.mem_cons.mp ht with rfl | ht
    · exact ⟨hmem.1, hm0⟩
    exact h5 t ht

theorem stepS_inv (σ : RSrc) (i : Nat) (s : SState)
    (h : sInv HardRev.modifiersS s) :
    sInv HardRev.modifiersS (HardRev.stepS σ i s).1 := by
  simp only [HardRev.stepS]
  split
  · next hcond =>
    split
    · next hp0 =>
      revert hp0
      have hp := getRandomElement_mem (σ s.k) HardRev.hardPatternsS [] (by decide)
      revert hp
      generalize getRandomElement (σ s.k) HardRev.hardPatternsS [] = pat
      intro hp hp0
      simp only [HardRev.hardPatternsS, List.mem_cons, List.not_mem_nil,
        or_false] at hp
      rcases hp with rfl | rfl | rfl | rfl <;>
        simp only [List.getD_cons_zero, List.getD_cons_succ] at hp0
      · exact sInv_pattern s "R" "U" "" "'" _ h (Ne.symm hp0) (by decide)
          (by decide) (by decide) (by decide)
      · exact sInv_pattern s "L" "U" "" "'" _ h (Ne.symm hp0) (by decide)
          (by decide) (by decide) (by decide)
      · exact sInv_pattern s "U" "R" "" "'" _ h (Ne.symm hp0) (by decide)
          (by decide) (by decide) (by decide)
      · exact sInv_pattern s "B" "R" "" "'" _ h (Ne.symm hp0) (by decide)
          (by decide) (by decide) (by decide)
    · exact adjacencyS_inv σ _ i s h
  · exact adjacencyS_inv σ _ i s h

theorem adjacencyS_len (σ : RSrc) (k i : Nat) (s : SState) :
    (HardRev.adjacencyS σ k i s).1.scramble.length = s.scramble.length + 1 ∧
      (HardRev.adjacencyS σ k i s).2 = i + 1 := by
  simp only [HardRev.adjacencyS]
  repeat' split
  all_goals exact ⟨rfl, rfl⟩

theorem stepS_len (σ : RSrc) (i : Nat) (s : SState) (hi : i < 12) :
    (HardRev.stepS σ i s).1.scramble.length =
        s.scramble.length + ((HardRev.stepS σ i s).2 - i) ∧
      i < (HardRev.stepS σ i s).2 ∧ (HardRev.stepS σ i s).2 ≤ 12 := by
  simp only [HardRev.stepS]
  split
  · next hcond =>
    split
    · next hp0 =>
      revert hp0
      have hp := getRandomElement_mem (σ s.k) HardRev.hardPatternsS [] (by decide)
      revert hp
      generalize getRandomElement (σ s.k) HardRev.hardPatternsS [] = pat
      intro hp hp0
      simp only [HardRev.hardPatternsS, List.mem_cons, List.not_mem_nil,
        or_false] at hp
      rcases hp with rfl | rfl | rfl | rfl <;>
        simp only [List.length_cons, List.length_nil] <;>
        omega
    · have hl := adjacencyS_len σ (s.k + 1) i s
      rw [hl.1, hl.2]
      omega
  · have hl := adjacencyS_len σ s.k i s
    rw [hl.1, hl.2]
    omega

theorem sInv_init : sInv HardRev.modifiersS ⟨[], "", "", 0⟩ :=
  ⟨by simp, by simp, rfl, List.chain'_nil, by simp⟩

theorem runS_inv (σ : RSrc) :
    sInv HardRev.modifiersS (fuelRun 12 (HardRev.stepS σ) 12 0 ⟨[], "", "", 0⟩) :=
  fuelRun_inv 12 _ _ (fun i s _ h => stepS_inv σ i s h) 12 0 _ sInv_init

theorem tokensSkewb_facts (σ : RSrc) :
    List.Chain' idNe (HardRev.tokensSkewb σ) ∧
      (∀ t ∈ HardRev.tokensSkewb σ,
        t.id ∈ corners ∧ t.suf ∈ HardRev.modifiersS) := by
  have h := runS_inv σ
  rw [HardRev.tokensSkewb]
  revert h
  generalize fuelRun 12 (HardRev.stepS σ) 12 0 ⟨[], "", "", 0⟩ = F
  intro h
  exact ⟨chain_reverse_idNe _ h.2.2.2.1,
    fun t ht => h.2.2.2.2 t (List.mem_reverse.mp ht)⟩

theorem tokensSkewb_len (σ : RSrc) : (HardRev.tokensSkewb σ).length = 12 := by
  rw [HardRev.tokensSkewb, List.length_reverse]
  rw [fuelRun_length _ _ (fun s => s.scramble.length)
    (fun i s hi => stepS_len σ i s hi) 12 0 _ (Nat.zero_le _) (by omega)]
  rfl

/-! ## Clock facts -/

theorem suf_mem_hourSufs (h : Nat) (hle : h ≤ 11) :
    "+" ++ toString h ∈ hourSufs := by
  rw [hourSufs]
  exact List.mem_map.mpr ⟨h, List.mem_range.mpr (by omega), rfl⟩

theorem mem_ud (x : String) (hx : x ∈ (["u", "d"] : List String)) :
    x = "u" ∨ x = "d" := by
  simpa using hx

theorem clockHour_le (σ : RSrc) (k : Nat) : (HardRev.clockHour σ k).1 ≤ 11 := by
  simp only [HardRev.clockHour]
  split
  · split
    · exact getRandomInt_le _ _ _ (by norm_num)
    · exact getRandomInt_le _ _ _ (by norm_num)
  · exact getRandomInt_le _ _ _ (by norm_num)

theorem clockMoves_ids (σ : RSrc) : ∀ (ps : List String) (k : Nat),
    (HardRev.clockMoves σ ps k).1.map Tok.id = ps := by
  intro ps
  induction ps with
  | nil => intro k; rfl
  | cons p rest ih =>
    intro k
    simp only [HardRev.clockMoves, List.map_cons]
    rw [ih]

theorem clockMoves_len (σ : RSrc) : ∀ (ps : List String) (k : Nat),
    (HardRev.clockMoves σ ps k).1.length = ps.length := by
  intro ps
  induction ps with
  | nil => intro k; rfl
  | cons p rest ih =>
    intro k
    simp only [HardRev.clockMoves, List.length_cons]
    rw [ih]

theorem clockMoves_sufs (σ : RSrc) : ∀ (ps : List String) (k : Nat),
    ∀ t ∈ (HardRev.clockMoves σ ps k).1, t.suf ∈ hourSufs := by
  intro ps
  induction ps with
  | nil => intro k t ht; exact absurd ht (List.not_mem_nil t)
  | cons p rest ih =>
    intro k t ht
    simp only [HardRev.clockMoves] at ht
    rcases List.mem_cons.mp ht with rfl | ht
    · show ((if 0 ≤ (HardRev.clockHour σ k).1 then "+" else "") ++
        toString (HardRev.clockHour σ k).1) ∈ hourSufs
      rw [if_pos (Nat.zero_le _)]
      exact suf_mem_hourSufs _ (clockHour_le σ k)
    · exact ih _ t ht

theorem clockPins_facts (σ : RSrc) :
    (HardRev.clockPins σ).1.length = 4 ∧
      ∀ p ∈ (HardRev.clockPins σ).1, p = "u" ∨ p = "d" := by
  simp only [HardRev.clockPins]
  split
  · have hc := getRandomElement_mem (σ 1) HardRev.hardPinConfigs [] (by decide)
    revert hc
    generalize getRandomElement (σ 1) HardRev.hardPinConfigs [] = c
    intro hc
    refine ⟨?_, ?_⟩
    · exact (by decide : ∀ x ∈ HardRev.hardPinConfigs, x.length = 4) c hc
    · intro p hp
      exact (by decide : ∀ x ∈ HardRev.hardPinConfigs,
        ∀ p ∈ x, p = "u" ∨ p = "d") c hc p hp
  · refine ⟨rfl, ?_⟩
    intro p hp
    simp only [List.mem_cons, List.not_mem_nil, or_false] at hp
    rcases hp with rfl | rfl | rfl | rfl <;>
      exact mem_ud _ (getRandomElement_mem _ _ _ (by decide))

theorem pinSuf_mem (ps : List String) (hlen : ps.length = 4)
    (hud : ∀ p ∈ ps, p = "u" ∨ p = "d") :
    ps.getD 0 "" ++ "," ++ ps.getD 1 "" ++ "," ++ ps.getD 2 "" ++ "," ++
      ps.getD 3 "" ++ ")" ∈ pinSufStrings := by
  obtain ⟨a, b, c, e, rfl⟩ : ∃ a b c e, ps = [a, b, c, e] := by
    rcases ps with _ | ⟨a, _ | ⟨b, _ | ⟨c, _ | ⟨e, _ | ⟨f, rest⟩⟩⟩⟩⟩ <;>
      first
        | exact ⟨a, b, c, e, rfl⟩
        | (exfalso; simp only [List.length_cons, List.length_nil] at hlen; omega)
  have ha := hud a (by simp)
  have hb := hud b (by simp)
  have hc := hud c (by simp)
  have he := hud e (by simp)
  rcases ha with rfl | rfl <;> rcases hb with rfl | rfl <;>
    rcases hc with rfl | rfl <;> rcases he with rfl | rfl <;> decide

theorem clock_ids_chain : List.Chain' Ne ("(" :: (positions ++ "y2" :: positions)) := by
  show List.Chain' Ne
    ["(", "UL", "UR", "DR", "DL", "ALL", "y2", "UL", "UR", "DR", "DL", "ALL"]
  simp only [List.chain'_cons, List.chain'_singleton]
  decide

theorem tokensClock_shape (σ : RSrc) :
    (HardRev.tokensClock σ).map Tok.id = "(" :: (positions ++ "y2" :: positions) := by
  simp only [HardRev.tokensClock, List.map_cons, List.map_append]
  rw [clockMoves_ids, clockMoves_ids]
  rfl

theorem tokensClock_len (σ : RSrc) : (HardRev.tokensClock σ).length = 12 := by
  simp only [HardRev.tokensClock, List.length_cons, List.length_append]
  rw [clockMoves_len, clockMoves_len]
  rfl

theorem chain_of_chain_ids (l : List Tok)
    (h : List.Chain' Ne (l.map Tok.id)) : List.Chain' idNe l := by
  rw [List.chain'_map] at h
  exact h

theorem tokensClock_chain (σ : RSrc) :
    List.Chain' idNe (HardRev.tokensClock σ) := by
  apply chain_of_chain_ids
  rw [tokensClock_shape]
  exact clock_ids_chain

theorem tokensClock_toks (σ : RSrc) :
    ∀ t ∈ HardRev.tokensClock σ, clockTokOK t := by
  intro t ht
  simp only [HardRev.tokensClock] at ht
  rcases List.mem_cons.mp ht with rfl | ht
  · exact Or.inl ⟨rfl, pinSuf_mem _ (clockPins_facts σ).1 (clockPins_facts σ).2⟩
  rcases List.mem_append.mp ht with ht | ht
  · refine Or.inr (Or.inr ⟨?_, clockMoves_sufs σ positions _ t ht⟩)
    have hm : t.id ∈
        ((HardRev.clockMoves σ positions (HardRev.clockPins σ).2).1.map Tok.id) :=
      List.mem_map_of_mem _ ht
    rwa [clockMoves_ids] at hm
  rcases List.mem_cons.mp ht with rfl | ht
  · exact Or.inr (Or.inl ⟨rfl, rfl⟩)
  · refine Or.inr (Or.inr ⟨?_, clockMoves_sufs σ positions _ t ht⟩)
    have hm : t.id ∈
        ((HardRev.clockMoves σ positions
          (HardRev.clockMoves σ positions (HardRev.clockPins σ).2).2).1.map Tok.id) :=
      List.mem_map_of_mem _ ht
    rwa [clockMoves_ids] at hm

/-! ## The axis-filtering revision of part_007 (second document) -/

theorem stepA3_inv (σ : RSrc) (i : Nat) (s : MState)
    (h : lcInv moves3 AxisRev.modifiers s) :
    lcInv moves3 AxisRev.modifiers (AxisRev.step3 σ i s) := by
  have hne := avail3_ne_nil s.lastMove s.secondLastMove
  have hface := getRandomElement_mem (σ s.k) _ "" hne
  obtain ⟨hfm, hfl⟩ := avail3_mem s.lastMove h.1 s.secondLastMove h.2.1 _ hface
  refine lcInv_push _ _ s _ _ _ h hfm (getRandomElement_mem _ _ _ (by decide)) ?_
  intro hacc
  rcases hfl with hempty | hfl
  · have hl : s.lastMove ∈ moves3 :=
      last_mem_of_headIs s.scramble s.lastMove moves3 h.2.2.1
        (fun t ht => (h.2.2.2.2 t ht).1) hacc
    exact absurd hempty (mem_moves3_ne_empty _ hl)
  · exact hfl

theorem lcInv_initA : lcInv moves3 AxisRev.modifiers ⟨[], "", "", 0⟩ :=
  ⟨by simp, by simp, rfl, List.chain'_nil, by simp⟩

theorem runA3_inv (σ : RSrc) :
    lcInv moves3 AxisRev.modifiers
      (iterRun (AxisRev.step3 σ) 20 0 ⟨[], "", "", 0⟩) :=
  iterRun_inv _ _ (fun i s h => stepA3_inv σ i s h) 20 0 _ lcInv_initA

theorem tokensA3_facts (σ : RSrc) :
    List.Chain' axisSep (AxisRev.tokens3x3 σ) ∧
      (∀ t ∈ AxisRev.tokens3x3 σ, t.id ∈ moves3 ∧ t.suf ∈ AxisRev.modifiers) := by
  have h := runA3_inv σ
  rw [AxisRev.tokens3x3]
  revert h
  generalize iterRun (AxisRev.step3 σ) 20 0 ⟨[], "", "", 0⟩ = F
  intro h
  exact ⟨chain_reverse_axis _ h.2.2.2.1,
    fun t ht => h.2.2.2.2 t (List.mem_reverse.mp ht)⟩

theorem tokensA3_len (σ : RSrc) : (AxisRev.tokens3x3 σ).length = 20 := by
  rw [AxisRev.tokens3x3, List.length_reverse]
  rw [iterRun_length (AxisRev.step3 σ) (fun s => s.scramble.length)
    (fun i s => rfl) 20 0 _]
  rfl

theorem stepA2_inv (σ : RSrc) (i : Nat) (s : MState)
    (h : mInv AxisRev.moves2 AxisRev.modifiers2 s) :
    mInv AxisRev.moves2 AxisRev.modifiers2 (AxisRev.step2 σ i s) := by
  have hne : AxisRev.moves2.filter (fun move => move != s.lastMove) ≠ [] :=
    filter_bne_ne_nil _ "R" "U" s.lastMove (by decide) (by decide) (by decide)
  have hc := getRandomElement_mem (σ s.k) _ "" hne
  rw [List.mem_filter] at hc
  exact mInv_push _ _ s _ _ _ _ h hc.1 (getRandomElement_mem _ _ _ (by decide))
    h.2.1 (fun _ => by simpa [bne_iff_ne] using hc.2)

theorem mInv_initA2 : mInv AxisRev.moves2 AxisRev.modifiers2 ⟨[], "", "", 0⟩ :=
  ⟨by simp, by simp, rfl, List.chain'_nil, by simp⟩

theorem runA2_inv (σ : RSrc) :
    mInv AxisRev.moves2 AxisRev.modifiers2
      (iterRun (AxisRev.step2 σ) 11 0 ⟨[], "", "", 0⟩) :=
  iterRun_inv _ _ (fun i s h => stepA2_inv σ i s h) 11 0 _ mInv_initA2

theorem tokensA2_facts (σ : RSrc) :
    List.Chain' idNe (AxisRev.tokens2x2 σ) ∧
      (∀ t ∈ AxisRev.tokens2x2 σ,
        t.id ∈ AxisRev.moves2 ∧ t.suf ∈ AxisRev.modifiers2) := by
  have h := runA2_inv σ
  rw [AxisRev.tokens2x2]
  revert h
  generalize iterRun (AxisRev.step2 σ) 11 0 ⟨[], "", "", 0⟩ = F
  intro h
  exact ⟨chain_reverse_idNe _ h.2.2.2.1,
    fun t ht => h.2.2.2.2 t (List.mem_reverse.mp ht)⟩

theorem tokensA2_len (σ : RSrc) : (AxisRev.tokens2x2 σ).length = 11 := by
  rw [AxisRev.tokens2x2, List.length_reverse]
  rw [iterRun_length (AxisRev.step2 σ) (fun s => s.scramble.length)
    (fun i s => rfl) 11 0 _]
  rfl

theorem stepAP_inv (σ : RSrc) (i : Nat) (s : MState)
    (h : mInv regularMoves AxisRev.modifiersP s) :
    mInv regularMoves AxisRev.modifiersP (AxisRev.stepP σ i s) := by
  have hne : regularMoves.filter (fun move => move != s.lastMove) ≠ [] :=
    filter_bne_ne_nil _ "R" "L" s.lastMove (by decide) (by decide) (by decide)
  have hc := getRandomElement_mem (σ s.k) _ "" hne
  rw [List.mem_filter] at hc
  exact mInv_push _ _ s _ _ _ _ h hc.1 (getRandomElement_mem _ _ _ (by decide))
    h.2.1 (fun _ => by simpa [bne_iff_ne] using hc.2)

theorem mInv_initAP : mInv regularMoves AxisRev.modifiersP ⟨[], "", "", 1⟩ :=
  ⟨by simp, by simp, rfl, List.chain'_nil, by simp⟩

theorem pyraminxMainA_facts (σ : RSrc) :
    List.Chain' idNe (AxisRev.pyraminxMain σ) ∧
      (∀ t ∈ AxisRev.pyraminxMain σ,
        t.id ∈ regularMoves ∧ t.suf ∈ AxisRev.modifiersP) := by
  have h := iterRun_inv (AxisRev.stepP σ) (mInv regularMoves AxisRev.modifiersP)
    (fun i s h => stepAP_inv σ i s h) (getRandomInt (σ 0) 8 10) 0 _ mInv_initAP
  simp only [AxisRev.pyraminxMain, AxisRev.pyraminxMainState]
  revert h
  generalize iterRun (AxisRev.stepP σ) (getRandomInt (σ 0) 8 10) 0
    ⟨[], "", "", 1⟩ = F
  intro h
  exact ⟨chain_reverse_idNe _ h.2.2.2.1,
    fun t ht => h.2.2.2.2 t (List.mem_reverse.mp ht)⟩

theorem pyraminxTipsA_facts (σ : RSrc) :
    ((AxisRev.pyraminxTips σ).map Tok.id).Nodup ∧
      (∀ t ∈ AxisRev.pyraminxTips σ,
        t.id ∈ tipMoves ∧ t.suf ∈ AxisRev.modifiersP) := by
  simp only [AxisRev.pyraminxTips]
  generalize AxisRev.pyraminxMainState σ = S
  have h := tipLoop_inv σ AxisRev.modifiersP (by decide)
    (getRandomInt (σ S.k) 0 4) [] (S.k + 1) [] (tipInv_nil _)
  constructor
  · rw [List.map_reverse, List.nodup_reverse]
    exact h.1
  · intro t ht
    exact h.2 t (List.mem_reverse.mp ht)

theorem tokensPyraminxA_chain (σ : RSrc) :
    List.Chain' idNe (AxisRev.tokensPyraminx σ) := by
  rw [AxisRev.tokensPyraminx, List.chain'_append]
  refine ⟨(pyraminxMainA_facts σ).1, nodupIds_chain _ (pyraminxTipsA_facts σ).1, ?_⟩
  intro x hx y hy
  have hxm : x ∈ AxisRev.pyraminxMain σ := mem_of_getLastQ hx
  have hym : y ∈ AxisRev.pyraminxTips σ := List.mem_of_mem_head? hy
  exact regular_tip_disjoint _ ((pyraminxMainA_facts σ).2 x hxm).1 _
    ((pyraminxTipsA_facts σ).2 y hym).1

theorem stepAS_inv (σ : RSrc) (i : Nat) (s : SState)
    (h : sInv AxisRev.modifiersS s) :
    sInv AxisRev.modifiersS (AxisRev.stepS σ i s) := by
  have hne : corners.filter (fun corner => corner != s.lastCorner) ≠ [] :=
    filter_bne_ne_nil _ "R" "U" s.lastCorner (by decide) (by decide) (by decide)
  have hc := getRandomElement_mem (σ s.k) _ "" hne
  rw [List.mem_filter] at hc
  exact sInv_push _ s _ _ _ _ h hc.1 (getRandomElement_mem _ _ _ (by decide))
    h.2.1 (fun _ => by simpa [bne_iff_ne] using hc.2)

theorem sInv_initA : sInv AxisRev.modifiersS ⟨[], "", "", 0⟩ :=
  ⟨by simp, by simp, rfl, List.chain'_nil, by simp⟩

theorem tokensAS_facts (σ : RSrc) :
    List.Chain' idNe (AxisRev.tokensSkewb σ) ∧
      (∀ t ∈ AxisRev.tokensSkewb σ,
        t.id ∈ corners ∧ t.suf ∈ AxisRev.modifiersS) := by
  have h := iterRun_inv (AxisRev.stepS σ) (sInv AxisRev.modifiersS)
    (fun i s h => stepAS_inv σ i s h) 9 0 _ sInv_initA
  rw [AxisRev.tokensSkewb]
  revert h
  generalize iterRun (AxisRev.stepS σ) 9 0 ⟨[], "", "", 0⟩ = F
  intro h
  exact ⟨chain_reverse_idNe _ h.2.2.2.1,
    fun t ht => h.2.2.2.2 t (List.mem_reverse.mp ht)⟩

theorem clockMovesA_ids (σ : RSrc) : ∀ (ps : List String) (k : Nat),
    (AxisRev.clockMoves σ ps k).1.map Tok.id = ps := by
  intro ps
  induction ps with
  | nil => intro k; rfl
  | cons p rest ih =>
    intro k
    simp only [AxisRev.clockMoves, List.map_cons]
    rw [ih]

theorem clockMovesA_len (σ : RSrc) : ∀ (ps : List String) (k : Nat),
    (AxisRev.clockMoves σ ps k).1.length = ps.length := by
  intro ps
  induction ps with
  | nil => intro k; rfl
  | cons p rest ih =>
    intro k
    simp only [AxisRev.clockMoves, List.length_cons]
    rw [ih]

theorem clockMovesA_sufs (σ : RSrc) : ∀ (ps : List String) (k : Nat),
    ∀ t ∈ (AxisRev.clockMoves σ ps k).1, t.suf ∈ hourSufs := by
  intro ps
  induction ps with
  | nil => intro k t ht; exact absurd ht (List.not_mem_nil t)
  | cons p rest ih =>
    intro k t ht
    simp only [AxisRev.clockMoves] at ht
    rcases List.mem_cons.mp ht with rfl | ht
    · show ((if 0 ≤ getRandomInt (σ k) 0 6 then "+" else "") ++
        toString (getRandomInt (σ k) 0 6)) ∈ hourSufs
      rw [if_pos (Nat.zero_le _)]
      exact suf_mem_hourSufs _ (le_trans (getRandomInt_le _ _ _ (by norm_num))
        (by norm_num))
    · exact ih _ t ht

theorem clockPinsA_facts (σ : RSrc) :
    (AxisRev.clockPins σ).length = 4 ∧
      ∀ p ∈ AxisRev.clockPins σ, p = "u" ∨ p = "d" := by
  refine ⟨rfl, ?_⟩
  intro p hp
  simp only [AxisRev.clockPins, List.mem_cons, List.not_mem_nil, or_false] at hp
  rcases hp with rfl | rfl | rfl | rfl <;>
    exact mem_ud _ (getRandomElement_mem _ _ _ (by decide))

theorem tokensClockA_shape (σ : RSrc) :
    (AxisRev.tokensClock σ).map Tok.id = "(" :: (positions ++ "y2" :: positions) := by
  simp only [AxisRev.tokensClock, List.map_cons, List.map_append]
  rw [clockMovesA_ids, clockMovesA_ids]
  rfl

theorem tokensClockA_len (σ : RSrc) : (AxisRev.tokensClock σ).length = 12 := by
  simp only [AxisRev.tokensClock, List.length_cons, List.length_append]
  rw [clockMovesA_len, clockMovesA_len]
  rfl

theorem tokensClockA_chain (σ : RSrc) :
    List.Chain' idNe (AxisRev.tokensClock σ) := by
  apply chain_of_chain_ids
  rw [tokensClockA_shape]
  exact clock_ids_chain

theorem tokensClockA_toks (σ : RSrc) :
    ∀ t ∈ AxisRev.tokensClock σ, clockTokOK t := by
  intro t ht
  simp only [AxisRev.tokensClock] at ht
  rcases List.mem_cons.mp ht with rfl | ht
  · exact Or.inl ⟨rfl, pinSuf_mem _ (clockPinsA_facts σ).1 (clockPinsA_facts σ).2⟩
  rcases List.mem_append.mp ht with ht | ht
  · refine Or.inr (Or.inr ⟨?_, clockMovesA_sufs σ positions _ t ht⟩)
    have hm : t.id ∈ ((AxisRev.clockMoves σ positions 4).1.map Tok.id) :=
      List.mem_map_of_mem _ ht
    rwa [clockMovesA_ids] at hm
  rcases List.mem_cons.mp ht with rfl | ht
  · exact Or.inr (Or.inl ⟨rfl, rfl⟩)
  · refine Or.inr (Or.inr ⟨?_, clockMovesA_sufs σ positions _ t ht⟩)
    have hm : t.id ∈
        ((AxisRev.clockMoves σ positions
          (AxisRev.clockMoves σ positions 4).2).1.map Tok.id) :=
      List.mem_map_of_mem _ ht
    rwa [clockMovesA_ids] at hm

/-! ## The simple revision of part_007 (first document) -/

theorem stepSimple_inv (σ : RSrc) (i : Nat) (s : SimpleRev.St)
    (h : simpleInv s) : simpleInv (SimpleRev.step3 σ i s) := by
  have hne : moves3.filter (fun m => m != s.lastFace) ≠ [] :=
    filter_bne_ne_nil _ "R" "U" s.lastFace (by decide) (by decide) (by decide)
  have hc := getRandomElement_mem (σ s.k) _ "" hne
  rw [List.mem_filter] at hc
  obtain ⟨h1, h2, h3, h4⟩ := h
  refine ⟨List.mem_cons_of_mem _ hc.1, rfl,
    chain_push s.scramble s.lastFace _ h2 h3
      (fun _ => by simpa [bne_iff_ne] using hc.2), ?_⟩
  intro t ht
  rcases List.mem_cons.mp ht with rfl | ht
  · exact ⟨hc.1, getRandomElement_mem _ _ _ (by decide)⟩
  · exact h4 t ht

theorem simpleInv_init : simpleInv ⟨[], "", 0⟩ :=
  ⟨by simp, rfl, List.chain'_nil, by simp⟩

theorem tokensSimple3_chain (σ : RSrc) :
    List.Chain' idNe (SimpleRev.tokens3x3 σ) := by
  have h := iterRun_inv (SimpleRev.step3 σ) simpleInv
    (fun i s h => stepSimple_inv σ i s h) 20 0 _ simpleInv_init
  rw [SimpleRev.tokens3x3]
  revert h
  generalize iterRun (SimpleRev.step3 σ) 20 0 ⟨[], "", 0⟩ = F
  intro h
  exact chain_reverse_idNe _ h.2.2.1

/-! ## Axis chains imply distinct-face chains -/

theorem chain_axisSep_imp_idNe (alpha : List String)
    (hax : ∀ x ∈ alpha, x ∈ sameAxis x) :
    ∀ l : List Tok, (∀ t ∈ l, t.id ∈ alpha) → List.Chain' axisSep l →
      List.Chain' idNe l := by
  intro l
  induction l with
  | nil => intro _ _; exact List.chain'_nil
  | cons a rest ih =>
    cases rest with
    | nil => intro _ _; exact List.chain'_singleton a
    | cons b rest2 =>
      intro hmem hch
      rw [List.chain'_cons] at hch ⊢
      refine ⟨?_, ih (fun x hx => hmem x (List.mem_cons_of_mem _ hx)) hch.2⟩
      intro heq
      have hb : a.id ∈ alpha := hmem a (by simp)
      have htrue : (sameAxis a.id).contains a.id = true :=
        List.elem_iff.mpr (hax a.id hb)
      have hfalse := hch.1
      simp only [axisSep, ← heq] at hfalse
      rw [hfalse] at htrue
      exact Bool.false_ne_true htrue

theorem tokens3x3_neChain (σ : RSrc) :
    List.Chain' idNe (HardRev.tokens3x3 σ) := by
  have h := tokens3x3_facts σ
  revert h
  generalize HardRev.tokens3x3 σ = L
  intro h
  exact chain_axisSep_imp_idNe moves3 (by decide) L
    (fun t ht => (h.2 t ht).1) h.1

theorem tokens2x2_neChain (σ : RSrc) :
    List.Chain' idNe (HardRev.tokens2x2 σ) := by
  have h := tokens2x2_facts σ
  revert h
  generalize HardRev.tokens2x2 σ = L
  intro h
  exact chain_axisSep_imp_idNe HardRev.moves2 (by decide) L
    (fun t ht => (h.2 t ht).1) h.1

theorem tokensA3_neChain (σ : RSrc) :
    List.Chain' idNe (AxisRev.tokens3x3 σ) := by
  have h := tokensA3_facts σ
  revert h
  generalize AxisRev.tokens3x3 σ = L
  intro h
  exact chain_axisSep_imp_idNe moves3 (by decide) L
    (fun t ht => (h.2 t ht).1) h.1

/-! ## Dispatch case analysis -/

theorem genTokensH_cases (cubeType : String) (σ : RSrc) :
    HardRev.genTokens cubeType σ = HardRev.tokens3x3 σ ∨
    HardRev.genTokens cubeType σ = HardRev.tokens2x2 σ ∨
    HardRev.genTokens cubeType σ = HardRev.tokensPyraminx σ ∨
    HardRev.genTokens cubeType σ = HardRev.tokensSkewb σ ∨
    HardRev.genTokens cubeType σ = HardRev.tokensClock σ := by
  rw [HardRev.genTokens.eq_def]
  split <;> simp [HardRev.tokens3x3BLD, HardRev.tokens3x3OH]

theorem genTokensA_cases (cubeType : String) (σ : RSrc) :
    AxisRev.genTokens cubeType σ = AxisRev.tokens3x3 σ ∨
    AxisRev.genTokens cubeType σ = AxisRev.tokens2x2 σ ∨
    AxisRev.genTokens cubeType σ = AxisRev.tokensPyraminx σ ∨
    AxisRev.genTokens cubeType σ = AxisRev.tokensSkewb σ ∨
    AxisRev.genTokens cubeType σ = AxisRev.tokensClock σ := by
  rw [AxisRev.genTokens.eq_def]
  split <;> simp [AxisRev.tokens3x3BLD, AxisRev.tokens3x3OH]

/-! ## Character-level facts -/

theorem okStr_append (a b : String) (ha : okStr a = true) (hb : okStr b = true) :
    okStr (a ++ b) = true := by
  rw [okStr, String.data_append, List.all_append]
  rw [okStr] at ha hb
  rw [ha, hb]
  rfl

theorem joinSpace_ok : ∀ l : List String, (∀ s ∈ l, okStr s = true) →
    okStr (joinSpace l) = true
  | [], _ => rfl
  | [s], h => h s (by simp)
  | s :: s2 :: rest, h => by
    show okStr (s ++ " " ++ joinSpace (s2 :: rest)) = true
    exact okStr_append _ _ (okStr_append _ _ (h s (by simp)) (by decide))
      (joinSpace_ok (s2 :: rest) (fun x hx => h x (List.mem_cons_of_mem _ hx)))

theorem renderScramble_ok (ts : List Tok)
    (h : ∀ t ∈ ts, okStr t.id = true ∧ okStr t.suf = true) :
    okStr (renderScramble ts) = true := by
  rw [renderScramble]
  apply joinSpace_ok
  intro s hs
  obtain ⟨t, ht, rfl⟩ := List.mem_map.mp hs
  exact okStr_append _ _ (h t ht).1 (h t ht).2

theorem okStr_of_mem (l : List String) (hall : l.all okStr = true) (s : String)
    (hs : s ∈ l) : okStr s = true := by
  rw [List.all_eq_true] at hall
  exact hall s hs

theorem clockTok_okStr (t : Tok) (h : clockTokOK t) :
    okStr t.id = true ∧ okStr t.suf = true := by
  rcases h with ⟨h1, h2⟩ | ⟨h1, h2⟩ | ⟨h1, h2⟩
  · exact ⟨by rw [h1]; decide, okStr_of_mem pinSufStrings (by decide) _ h2⟩
  · exact ⟨by rw [h1]; decide, by rw [h2]; decide⟩
  · exact ⟨okStr_of_mem positions (by decide) _ h1,
      okStr_of_mem hourSufs (by decide) _ h2⟩

theorem tokens_okStr_H (cubeType : String) (σ : RSrc) :
    ∀ t ∈ HardRev.genTokens cubeType σ, okStr t.id = true ∧ okStr t.suf = true := by
  rcases genTokensH_cases cubeType σ with h | h | h | h | h <;> rw [h] <;>
    intro t ht
  · have hf := (tokens3x3_facts σ).2 t ht
    exact ⟨okStr_of_mem moves3 (by decide) _ hf.1,
      okStr_of_mem HardRev.modifiers3 (by decide) _ hf.2⟩
  · have hf := (tokens2x2_facts σ).2 t ht
    exact ⟨okStr_of_mem HardRev.moves2 (by decide) _ hf.1,
      okStr_of_mem HardRev.modifiers2 (by decide) _ hf.2⟩
  · have hf := tokensPyraminx_toks σ t ht
    exact ⟨okStr_of_mem (regularMoves ++ tipMoves) (by decide) _ hf.1,
      okStr_of_mem HardRev.modifiersP (by decide) _ hf.2⟩
  · have hf := (tokensSkewb_facts σ).2 t ht
    exact ⟨okStr_of_mem corners (by decide) _ hf.1,
      okStr_of_mem HardRev.modifiersS (by decide) _ hf.2⟩
  · exact clockTok_okStr t (tokensClock_toks σ t ht)

theorem tokens_okStr_A (cubeType : String) (σ : RSrc) :
    ∀ t ∈ AxisRev.genTokens cubeType σ, okStr t.id = true ∧ okStr t.suf = true := by
  rcases genTokensA_cases cubeType σ with h | h | h | h | h <;> rw [h] <;>
    intro t ht
  · have hf := (tokensA3_facts σ).2 t ht
    exact ⟨okStr_of_mem moves3 (by decide) _ hf.1,
      okStr_of_mem AxisRev.modifiers (by decide) _ hf.2⟩
  · have hf := (tokensA2_facts σ).2 t ht
    exact ⟨okStr_of_mem AxisRev.moves2 (by decide) _ hf.1,
      okStr_of_mem AxisRev.modifiers2 (by decide) _ hf.2⟩
  · rw [AxisRev.tokensPyraminx] at ht
    rcases List.mem_append.mp ht with ht | ht
    · have hf := (pyraminxMainA_facts σ).2 t ht
      exact ⟨okStr_of_mem regularMoves (by decide) _ hf.1,
        okStr_of_mem AxisRev.modifiersP (by decide) _ hf.2⟩
    · have hf := (pyraminxTipsA_facts σ).2 t ht
      exact ⟨okStr_of_mem tipMoves (by decide) _ hf.1,
        okStr_of_mem AxisRev.modifiersP (by decide) _ hf.2⟩
  · have hf := (tokensAS_facts σ).2 t ht
    exact ⟨okStr_of_mem corners (by decide) _ hf.1,
      okStr_of_mem AxisRev.modifiersS (by decide) _ hf.2⟩
  · exact clockTok_okStr t (tokensClockA_toks σ t ht)

theorem forall_of_mem {p : Tok → Prop} {l : List Tok} (h : ∀ t ∈ l, p t) :
    List.Forall p l := List.forall_iff_forall_mem.mpr h

theorem genTokensH_default (c : String) (σ : RSrc)
    (h1 : c ≠ "3x3") (h2 : c ≠ "2x2") (h3 : c ≠ "Pyraminx") (h4 : c ≠ "Skewb")
    (h5 : c ≠ "Clock") (h6 : c ≠ "3x3 BLD") (h7 : c ≠ "3x3 OH") :
    HardRev.genTokens c σ = HardRev.tokens3x3 σ := by
  rw [HardRev.genTokens.eq_def]
  split
  · exact absurd rfl h1
  · exact absurd rfl h2
  · exact absurd rfl h3
  · exact absurd rfl h4
  · exact absurd rfl h5
  · exact absurd rfl h6
  · exact absurd rfl h7
  · rfl

theorem tokSpec_default (c : String)
    (h2 : c ≠ "2x2") (h3 : c ≠ "Pyraminx") (h4 : c ≠ "Skewb")
    (h5 : c ≠ "Clock") (t : Tok) :
    tokSpec c t = tokOK moves3 HardRev.modifiers3 t := by
  rw [tokSpec.eq_def]
  split
  · exact absurd rfl h2
  · exact absurd rfl h3
  · exact absurd rfl h4
  · exact absurd rfl h5
  · rfl

/-! ## The claims -/

/-- C1, counterexample: the claim fails on the simple revision of the 3x3
generator (part_007 lines 33-50), which filters only the immediately
preceding face.  Under the all-zeros draw stream its first two tokens are
`R` and `L`, two directly opposing faces on the same axis. -/
theorem claim_C1_counterexample :
    ((SimpleRev.tokens3x3 (fun _ => 0)).map Tok.id).take 2 = ["R", "L"] ∧
      "L" ∈ sameAxis "R" := by
  decide

/-- C1, amended: the two axis-filtering revisions of the 3x3 generator
(part_006 and the second part_007 revision) never emit two consecutive
tokens whose faces lie on the same axis — in particular never a face
directly followed by its opposing face — and the 3x3 BLD / 3x3 OH variants
delegate to them; the earliest (simple) revision guarantees only that
consecutive faces differ. -/
theorem claim_C1_amended : ∀ σ : RSrc,
    List.Chain' axisSep (HardRev.tokens3x3 σ) ∧
    List.Chain' axisSep (AxisRev.tokens3x3 σ) ∧
    HardRev.tokens3x3BLD σ = HardRev.tokens3x3 σ ∧
    HardRev.tokens3x3OH σ = HardRev.tokens3x3 σ ∧
    AxisRev.tokens3x3BLD σ = AxisRev.tokens3x3 σ ∧
    AxisRev.tokens3x3OH σ = AxisRev.tokens3x3 σ ∧
    List.Chain' idNe (SimpleRev.tokens3x3 σ) := by
  intro σ
  refine ⟨?_, ?_, rfl, rfl, rfl, rfl, ?_⟩
  · have hf := tokens3x3_facts σ
    revert hf
    generalize HardRev.tokens3x3 σ = L
    intro hf
    exact hf.1
  · have hf := tokensA3_facts σ
    revert hf
    generalize AxisRev.tokens3x3 σ = L
    intro hf
    exact hf.1
  · have h := iterRun_inv (SimpleRev.step3 σ) simpleInv
      (fun i s h => stepSimple_inv σ i s h) 20 0 _ simpleInv_init
    rw [SimpleRev.tokens3x3]
    revert h
    generalize iterRun (SimpleRev.step3 σ) 20 0 ⟨[], "", 0⟩ = F
    intro h
    exact chain_reverse_idNe _ h.2.2.1

/-- C2: for every cube-type tag (the seven known ones and the fallback) and
every draw stream, no emitted token's face/corner/position identifier
equals the identifier of the immediately preceding token, in both the
part_006 revision (including its hard-pattern insertion branches) and the
axis revision of part_007. -/
theorem claim_C2 : ∀ (cubeType : String) (σ : RSrc),
    List.Chain' idNe (HardRev.genTokens cubeType σ) ∧
    List.Chain' idNe (AxisRev.genTokens cubeType σ) := by
  intro c σ
  constructor
  · rcases genTokensH_cases c σ with h | h | h | h | h <;> rw [h]
    · have hf := tokens3x3_facts σ
      revert hf
      generalize HardRev.tokens3x3 σ = L
      intro hf
      exact chain_axisSep_imp_idNe moves3 (by decide) L
        (fun t ht => (hf.2 t ht).1) hf.1
    · have hf := tokens2x2_facts σ
      revert hf
      generalize HardRev.tokens2x2 σ = L
      intro hf
      exact chain_axisSep_imp_idNe HardRev.moves2 (by decide) L
        (fun t ht => (hf.2 t ht).1) hf.1
    · exact tokensPyraminx_chain σ
    · have hf := tokensSkewb_facts σ
      revert hf
      generalize HardRev.tokensSkewb σ = L
      intro hf
      exact hf.1
    · apply chain_of_chain_ids
      rw [tokensClock_shape]
      exact clock_ids_chain
  · rcases genTokensA_cases c σ with h | h | h | h | h <;> rw [h]
    · have hf := tokensA3_facts σ
      revert hf
      generalize AxisRev.tokens3x3 σ = L
      intro hf
      exact chain_axisSep_imp_idNe moves3 (by decide) L
        (fun t ht => (hf.2 t ht).1) hf.1
    · have hf := tokensA2_facts σ
      revert hf
      generalize AxisRev.tokens2x2 σ = L
      intro hf
      exact hf.1
    · exact tokensPyraminxA_chain σ
    · have hf := tokensAS_facts σ
      revert hf
      generalize AxisRev.tokensSkewb σ = L
      intro hf
      exact hf.1
    · apply chain_of_chain_ids
      rw [tokensClockA_shape]
      exact clock_ids_chain

/-- C3: a tag outside the seven recognised cube types, such as "4x4", is not
an error: both dispatch revisions fall through to the default branch and
return exactly the output of the 3x3 generator on the same draw stream. -/
theorem claim_C3 :
    (∀ σ : RSrc,
      HardRev.generateScramble "4x4" σ = HardRev.generate3x3Scramble σ) ∧
    (∀ σ : RSrc,
      AxisRev.generateScramble "4x4" σ = AxisRev.generate3x3Scramble σ) :=
  ⟨fun _ => rfl, fun _ => rfl⟩

/-- C4: the number of primary move tokens equals the documented target for
each generator, including the loop iterations on which a pattern branch
emits several tokens and skips the index ahead: part_006 3x3 emits exactly
25, part_006 2x2 exactly 15, part_006 Skewb exactly 12, the part_006
Pyraminx main phase between 12 and 14, and the axis revision's 2x2 exactly
11. -/
theorem claim_C4 : ∀ σ : RSrc,
    (HardRev.tokens3x3 σ).length = 25 ∧
    (HardRev.tokens2x2 σ).length = 15 ∧
    (HardRev.tokensSkewb σ).length = 12 ∧
    12 ≤ (HardRev.pyraminxMain σ).length ∧
    (HardRev.pyraminxMain σ).length ≤ 14 ∧
    (AxisRev.tokens2x2 σ).length = 11 := fun σ =>
  ⟨tokens3x3_len σ, tokens2x2_len σ, tokensSkewb_len σ,
    (pyraminxMain_len_bounds σ).1, (pyraminxMain_len_bounds σ).2,
    tokensA2_len σ⟩

/-- C5, counterexample: the claim fails on the earliest Clock revision
(part_007 lines 136-160): its output starts with four separate pin tokens
(`URx DRx DLx ULx`), not a parenthesized tuple, and under the all-zeros
stream has 9 tokens in total (the trailing `y2` appears only with
probability 1/2). -/
theorem claim_C5_counterexample :
    (SimpleRev.tokensClock (fun _ => 0)).map Tok.id =
      ["UR", "DR", "DL", "UL", "UL", "UR", "DR", "DL", "ALL"] ∧
    (SimpleRev.tokensClock (fun _ => 0)).length = 9 ∧
    (SimpleRev.generateClockScramble (fun _ => 0)).take 3 = "URU" := by
  decide

/-- C5, amended: in the tuple-prefix Clock revisions (part_006 and the
second part_007 revision), every scramble begins with the parenthesized
4-tuple token `(X,Y,Z,W)` whose four pin entries are each `u` or `d`,
followed by exactly 11 further tokens: the five positional rotations, the
fixed reorientation `y2`, and five more positional rotations; the earliest
revision instead emits four pin tokens and an optional trailing `y2`. -/
theorem claim_C5_amended : ∀ σ : RSrc,
    ((HardRev.tokensClock σ).map Tok.id =
        "(" :: (positions ++ "y2" :: positions) ∧
      (HardRev.tokensClock σ).length = 12 ∧
      (HardRev.tokensClock σ).headD ⟨"", ""⟩ =
        ⟨"(", (HardRev.clockPins σ).1.getD 0 "" ++ "," ++
          (HardRev.clockPins σ).1.getD 1 "" ++ "," ++
          (HardRev.clockPins σ).1.getD 2 "" ++ "," ++
          (HardRev.clockPins σ).1.getD 3 "" ++ ")"⟩ ∧
      (HardRev.clockPins σ).1.length = 4 ∧
      List.Forall (fun p => p = "u" ∨ p = "d") (HardRev.clockPins σ).1) ∧
    ((AxisRev.tokensClock σ).map Tok.id =
        "(" :: (positions ++ "y2" :: positions) ∧
      (AxisRev.tokensClock σ).length = 12 ∧
      (AxisRev.tokensClock σ).headD ⟨"", ""⟩ =
        ⟨"(", (AxisRev.clockPins σ).getD 0 "" ++ "," ++
          (AxisRev.clockPins σ).getD 1 "" ++ "," ++
          (AxisRev.clockPins σ).getD 2 "" ++ "," ++
          (AxisRev.clockPins σ).getD 3 "" ++ ")"⟩ ∧
      (AxisRev.clockPins σ).length = 4 ∧
      List.Forall (fun p => p = "u" ∨ p = "d") (AxisRev.clockPins σ)) := fun σ =>
  ⟨⟨tokensClock_shape σ, tokensClock_len σ, rfl, (clockPins_facts σ).1,
      List.forall_iff_forall_mem.mpr (clockPins_facts σ).2⟩,
    ⟨tokensClockA_shape σ, tokensClockA_len σ, rfl, (clockPinsA_facts σ).1,
      List.forall_iff_forall_mem.mpr (clockPinsA_facts σ).2⟩⟩

/-- C6: in both revisions that append Pyraminx tips through the used-tips
set, no tip letter appears more than once in a generated scramble, every
tip is a lowercase member of the tip alphabet, and every tip modifier is
drawn from the revision's {none, inverse} modifier list. -/
theorem claim_C6 : ∀ σ : RSrc,
    ((HardRev.pyraminxTips σ).map Tok.id).Nodup ∧
    List.Forall (fun t => t.id ∈ tipMoves ∧ t.suf ∈ HardRev.modifiersP)
      (HardRev.pyraminxTips σ) ∧
    ((AxisRev.pyraminxTips σ).map Tok.id).Nodup ∧
    List.Forall (fun t => t.id ∈ tipMoves ∧ t.suf ∈ AxisRev.modifiersP)
      (AxisRev.pyraminxTips σ) := fun σ =>
  ⟨(pyraminxTips_facts σ).1,
    forall_of_mem (pyraminxTips_facts σ).2,
    (pyraminxTipsA_facts σ).1,
    forall_of_mem (pyraminxTipsA_facts σ).2⟩

/-- C7: every token emitted by the part_006 dispatch satisfies the per-type
alphabet/modifier discipline `tokSpec`: its identifier belongs to the
puzzle's declared alphabet and its suffix to the puzzle's declared modifier
set, also for the tokens pushed by the hard-pattern branches (whose
modifiers are rendered from the pattern strings). -/
theorem claim_C7 : ∀ (cubeType : String) (σ : RSrc),
    List.Forall (tokSpec cubeType) (HardRev.genTokens cubeType σ) := by
  intro c σ
  by_cases h2 : c = "2x2"
  · subst h2
    have hf := (tokens2x2_facts σ).2
    have hg : HardRev.genTokens "2x2" σ = HardRev.tokens2x2 σ := rfl
    rw [hg]
    revert hf
    generalize HardRev.tokens2x2 σ = L
    intro hf
    exact forall_of_mem (fun t ht => hf t ht)
  by_cases h3 : c = "Pyraminx"
  · subst h3
    have hf := tokensPyraminx_toks σ
    have hg : HardRev.genTokens "Pyraminx" σ = HardRev.tokensPyraminx σ := rfl
    rw [hg]
    revert hf
    generalize HardRev.tokensPyraminx σ = L
    intro hf
    exact forall_of_mem (fun t ht => hf t ht)
  by_cases h4 : c = "Skewb"
  · subst h4
    have hf := (tokensSkewb_facts σ).2
    have hg : HardRev.genTokens "Skewb" σ = HardRev.tokensSkewb σ := rfl
    rw [hg]
    revert hf
    generalize HardRev.tokensSkewb σ = L
    intro hf
    exact forall_of_mem (fun t ht => hf t ht)
  by_cases h5 : c = "Clock"
  · subst h5
    have hf := tokensClock_toks σ
    have hg : HardRev.genTokens "Clock" σ = HardRev.tokensClock σ := rfl
    rw [hg]
    revert hf
    generalize HardRev.tokensClock σ = L
    intro hf
    exact forall_of_mem (fun t ht => hf t ht)
  by_cases h1 : c = "3x3"
  · subst h1
    have hf := (tokens3x3_facts σ).2
    have hg : HardRev.genTokens "3x3" σ = HardRev.tokens3x3 σ := rfl
    rw [hg]
    revert hf
    generalize HardRev.tokens3x3 σ = L
    intro hf
    exact forall_of_mem (fun t ht => hf t ht)
  by_cases h6 : c = "3x3 BLD"
  · subst h6
    have hf := (tokens3x3_facts σ).2
    have hg : HardRev.genTokens "3x3 BLD" σ = HardRev.tokens3x3 σ := rfl
    rw [hg]
    revert hf
    generalize HardRev.tokens3x3 σ = L
    intro hf
    exact forall_of_mem (fun t ht => hf t ht)
  by_cases h7 : c = "3x3 OH"
  · subst h7
    have hf := (tokens3x3_facts σ).2
    have hg : HardRev.genTokens "3x3 OH" σ = HardRev.tokens3x3 σ := rfl
    rw [hg]
    revert hf
    generalize HardRev.tokens3x3 σ = L
    intro hf
    exact forall_of_mem (fun t ht => hf t ht)
  · rw [genTokensH_default c σ h1 h2 h3 h4 h5 h6 h7]
    have hf := (tokens3x3_facts σ).2
    revert hf
    generalize HardRev.tokens3x3 σ = L
    intro hf
    apply forall_of_mem
    intro t ht
    rw [tokSpec_default c h2 h3 h4 h5 t]
    exact hf t ht

/-- C8: for every cube-type tag and draw stream, the scramble string
returned by `generateScramble` contains no newline character and no
backtick (so in particular never a triple-backtick sequence): it is safe to
embed verbatim in the fenced code block built by
`ScrambleManager.generateThreadContent`.  Proved for both the part_006 and
the axis-revision dispatch. -/
theorem claim_C8 : ∀ (cubeType : String) (σ : RSrc),
    okStr (HardRev.generateScramble cubeType σ) = true ∧
    okStr (AxisRev.generateScramble cubeType σ) = true := by
  intro c σ
  constructor
  · rw [HardRev.generateScramble]
    exact renderScramble_ok _ (tokens_okStr_H c σ)
  · rw [AxisRev.generateScramble]
    exact renderScramble_ok _ (tokens_okStr_A c σ)

/-- C9: the candidate sets of the sequential selection loops are never
empty, whatever the tracked last and second-last moves are: the computed
available-move lists (with their built-in relaxation to "anything but the
immediately preceding move") of the axis-filtering 3x3 loops — the code is
shared verbatim between part_006 and the axis revision — and of the
part_006 2x2 and Pyraminx loops always have positive length, so
`getRandomElement` is never applied to an empty array. -/
theorem claim_C9 : ∀ lastMove secondLastMove : String,
    0 < (avail3 lastMove secondLastMove).length ∧
    0 < (HardRev.avail2 lastMove secondLastMove).length ∧
    0 < (HardRev.availP lastMove secondLastMove).length := fun l s =>
  ⟨List.length_pos.mpr (avail3_ne_nil l s),
    List.length_pos.mpr (avail2_ne_nil l s),
    List.length_pos.mpr (availP_ne_nil l s)⟩

/-- C10: `getCubeTypeForDay` is total on weekday indices and realises the
fixed weekly schedule — Sunday (0) Clock, Monday (1) Skewb, Tuesday (2)
3x3 BLD, Wednesday (3) 2x2, Thursday (4) 3x3, Friday (5) Pyraminx,
Saturday (6) 3x3 OH — always returning a member of the closed seven-tag
cube-type enumeration. -/
theorem claim_C10 :
    (∀ d : Fin 7, Schema.getCubeTypeForDay d ∈ Schema.cubeTypesList) ∧
    Schema.getCubeTypeForDay 0 = "Clock" ∧
    Schema.getCubeTypeForDay 1 = "Skewb" ∧
    Schema.getCubeTypeForDay 2 = "3x3 BLD" ∧
    Schema.getCubeTypeForDay 3 = "2x2" ∧
    Schema.getCubeTypeForDay 4 = "3x3" ∧
    Schema.getCubeTypeForDay 5 = "Pyraminx" ∧
    Schema.getCubeTypeForDay 6 = "3x3 OH" := by
  decide

end SpeedCubing
